import Mathlib

/-!
# Session / participant / track subscription state machine of `joinroom.js`

A shallow embedding of `quickstart/src/joinroom.js`.  The JavaScript
functions `attachTrack`, `detachTrack`, `trackPublished`,
`participantConnected` and `joinRoom` become functions on an explicit
`State` that holds everything the code reads or mutates:

* the children of the `$participants` container (the sink),
* the media elements every track is attached to (`track.attach()` /
  `track.detach()` of twilio-video),
* the listener tables of the publications, participants, the room, the
  leave button and `window`,
* the promise returned by `joinRoom`,
* the `Room` object of twilio-video that `window.room` and the handlers of
  `joinRoom` refer to, with its participants, their publications and the
  tracks these are subscribed to,
* a call log (ghost state) that records which calls were performed.

Events of the environment (twilio-video emitting an event, the user clicking
the button, the browser firing `beforeunload` / `pagehide`) are the
constructors of `Event`; `fire` dispatches one event to the registered
listeners the way an `EventEmitter` does, and `run` fires a sequence.
JavaScript is single threaded and every handler runs to completion, so a
run is a left fold of `fire`.
-/

namespace JoinRoom

/-- Identity of a (local or remote) media track object. -/
abbrev TrackId := Nat

/-- Identity of a media element (the DOM node `track.attach()` creates). -/
abbrev Handle := Nat

/-- Identity of a `RemoteTrackPublication` object. -/
abbrev PubId := Nat

/-- Identity of a `RemoteParticipant` object. -/
abbrev PartId := Nat

/-- What the code reads of a `RemoteTrackPublication` when it is handed one:
its identity (listeners are registered on the object) and `publication.track`,
which is `null` while the publication is not subscribed to. -/
structure Publication where
  id : PubId
  track : Option TrackId
  deriving DecidableEq, Repr

/-- What the code reads of a `RemoteParticipant` when it is handed one: its
identity and the values of the `participant.tracks` map, in iteration order. -/
structure Participant where
  id : PartId
  tracks : List Publication
  deriving DecidableEq, Repr

/-- What the code reads of the `Room` that `connect` resolves with:
`localVideoTracks` is `Array.from(room.localParticipant.videoTracks.values())`
with every publication replaced by its `.track`, and `participants` are the
values of the `room.participants` map, in iteration order. -/
structure Room where
  localVideoTracks : List TrackId
  participants : List Participant
  deriving DecidableEq, Repr

/-- The errors of a join: the reason `connect` rejected with, or the
`TypeError` that reading `.track` of `undefined` throws. -/
inductive JsError where
  | connectError (reason : Nat)
  | typeError
  deriving DecidableEq, Repr

/-- State of the promise returned by `joinRoom`. -/
inductive Outcome where
  | pending
  | resolved
  | rejected (e : JsError)
  deriving DecidableEq, Repr

/-- The three disconnect triggers wired by `joinRoom`. -/
inductive Trigger where
  | leave
  | beforeunload
  | pagehide
  deriving DecidableEq, Repr

/-- Entries of the call log. -/
inductive Call where
  /-- `attachTrack(track, $participants)` created `el` and appended it. -/
  | attach (track : TrackId) (el : Handle)
  /-- `detachTrack(track)` called `remove()` on each of `els`. -/
  | detach (track : TrackId) (els : List Handle)
  /-- `trackPublished(publication, $participants)` was entered. -/
  | watch (pub : PubId)
  /-- `room.disconnect()` was called by the handler of trigger `src`. -/
  | disconnect (src : Trigger)
  /-- `resolve()` of the promise created at the end of the join was called. -/
  | resolve
  deriving DecidableEq, Repr

/-- Lifecycle state of the room (kept by twilio-video). -/
inductive RoomState where
  | connecting
  | connected
  | disconnected
  deriving DecidableEq, Repr

/-- The value of the property `window.onpagehide`: `null`, a handler some
other code installed, or the `() => room.disconnect()` of `joinRoom`. -/
inductive PageHide where
  | unset
  | other
  | disconnectRoom
  deriving DecidableEq, Repr

/-- Everything `joinroom.js` reads or mutates. -/
structure State where
  /-- Children of `$participants`, in document order. -/
  sink : List Handle
  /-- The `(track, element)` pairs of all tracks' attached elements. -/
  attachments : List (TrackId × Handle)
  /-- Elements whose `style.width` was set to `'100%'`. -/
  styled : List Handle
  /-- Identity of the next element `track.attach()` creates. -/
  nextHandle : Nat
  /-- Publications carrying a `'subscribed'` listener, one entry a listener. -/
  subscribedL : List PubId
  /-- Publications carrying an `'unsubscribed'` listener, one entry a listener. -/
  unsubscribedL : List PubId
  /-- Participants carrying a `'trackPublished'` listener, one entry a listener. -/
  trackPublishedL : List PartId
  /-- Number of `'participantConnected'` listeners on the room. -/
  participantConnectedL : Nat
  /-- Number of `onLeave` click handlers on `$leave`. -/
  leaveL : Nat
  /-- Number of `'beforeunload'` listeners added to `window`. -/
  beforeunloadL : Nat
  /-- Whether `window.onbeforeunload` is truthy. -/
  onbeforeunload : Bool
  /-- The property `window.onpagehide`. -/
  onpagehide : PageHide
  /-- One-time `'disconnected'` listeners on the room, each with the
  `localVideoTrack` it closes over. -/
  disconnectedOnce : List TrackId
  /-- The `Room` object the global `window.room` refers to, in its current
  state.  It is the object the handlers of `joinRoom` close over as `room`:
  twilio-video updates its participants and publications in place. -/
  windowRoom : Option Room
  /-- Lifecycle state of the room. -/
  roomState : RoomState
  /-- The promise returned by `joinRoom`. -/
  promise : Outcome
  /-- The call log. -/
  log : List Call
  deriving DecidableEq, Repr

/-- State before `joinRoom` is called: an empty container, no listeners, the
promise pending.  The two flags say whether `window.onbeforeunload` and
`window.onpagehide` are truthy. -/
def init (onbeforeunload onpagehide : Bool) : State where
  sink := []
  attachments := []
  styled := []
  nextHandle := 0
  subscribedL := []
  unsubscribedL := []
  trackPublishedL := []
  participantConnectedL := 0
  leaveL := 0
  beforeunloadL := 0
  onbeforeunload := onbeforeunload
  onpagehide := if onpagehide then PageHide.other else PageHide.unset
  disconnectedOnce := []
  windowRoom := none
  roomState := RoomState.connecting
  promise := Outcome.pending
  log := []

/-- The media elements `track` is currently attached to (what
`track.detach()` would return), oldest first. -/
def handlesOf (s : State) (track : TrackId) : List Handle :=
  (s.attachments.filter (fun a => a.1 = track)).map Prod.snd

/-- `attachTrack(track, $participants)`: `track.attach()` creates a new media
element and records it as attached to the track, its width is set to
`'100%'`, and it is appended to the container. -/
def attachTrack (track : TrackId) (s : State) : State :=
  let mediaElement := s.nextHandle
  { s with
    nextHandle := s.nextHandle + 1
    attachments := s.attachments ++ [(track, mediaElement)]
    styled := s.styled ++ [mediaElement]
    sink := s.sink ++ [mediaElement]
    log := s.log ++ [Call.attach track mediaElement] }

/-- `mediaElement.remove()`: the element leaves its parent. -/
def removeElement (s : State) (mediaElement : Handle) : State :=
  { s with sink := s.sink.filter (fun h => h ≠ mediaElement) }

/-- `detachTrack(track)`: `track.detach()` detaches the track from all its
media elements and returns them; each one is then removed from the DOM. -/
def detachTrack (track : TrackId) (s : State) : State :=
  let mediaElements := handlesOf s track
  let s1 := { s with
    attachments := s.attachments.filter (fun a => a.1 ≠ track)
    log := s.log ++ [Call.detach track mediaElements] }
  mediaElements.foldl removeElement s1

/-- `trackPublished(publication, $participants)`. -/
def trackPublished (publication : Publication) (s : State) : State :=
  let s0 := { s with log := s.log ++ [Call.watch publication.id] }
  let s1 := match publication.track with
    | some track => attachTrack track s0
    | none => s0
  let s2 := { s1 with subscribedL := s1.subscribedL ++ [publication.id] }
  { s2 with unsubscribedL := s2.unsubscribedL ++ [publication.id] }

/-- `participantConnected(participant, $participants)`. -/
def participantConnected (participant : Participant) (s : State) : State :=
  let s1 := participant.tracks.foldl (fun acc publication => trackPublished publication acc) s
  { s1 with trackPublishedL := s1.trackPublishedL ++ [participant.id] }

/-- Dispatch of one emitted event to `n` registered copies of a listener: the
listener array is copied before the dispatch, so each of the `n` listeners
runs once, in order. -/
def callEach (n : Nat) (listener : State → State) (s : State) : State :=
  Nat.iterate listener n s

/-- twilio-video sets or clears the track of publication `pub` of the room
(`publication.track`), in place. -/
def Room.setTrack (pub : PubId) (track : Option TrackId) (room : Room) : Room :=
  { room with
    participants := room.participants.map (fun participant =>
      { participant with
        tracks := participant.tracks.map (fun publication =>
          if publication.id = pub then { publication with track := track } else publication) }) }

/-- twilio-video adds a new publication to `participant.tracks` of
participant `part`. -/
def Room.addPublication (part : PartId) (publication : Publication) (room : Room) : Room :=
  { room with
    participants := room.participants.map (fun participant =>
      if participant.id = part then
        { participant with tracks := participant.tracks ++ [publication] }
      else participant) }

/-- twilio-video adds a new participant to `room.participants`. -/
def Room.addParticipant (participant : Participant) (room : Room) : Room :=
  { room with participants := room.participants ++ [participant] }

/-- The subscribed publications of the room with their tracks, in the
iteration order of `room.participants` and of each `participant.tracks`. -/
def Room.subscriptions (room : Room) : List (PubId × TrackId) :=
  (room.participants.map (fun participant =>
    participant.tracks.filterMap (fun publication =>
      publication.track.map (fun track => (publication.id, track))))).flatten

/-- twilio-video changes the room object. -/
def updateRoom (f : Room → Room) (s : State) : State :=
  { s with windowRoom := s.windowRoom.map f }

/-- The subscribed publications of the room object, with their tracks. -/
def subscriptionsOf (s : State) : List (PubId × TrackId) :=
  match s.windowRoom with
  | some room => room.subscriptions
  | none => []

/-- Publication `pub` is unsubscribed from `track`: twilio-video clears
`publication.track` and the publication emits `'unsubscribed'` with the
track, which runs the `detachTrack` listeners registered on it. -/
def emitUnsubscribed (pub : PubId) (track : TrackId) (s : State) : State :=
  callEach (s.unsubscribedL.count pub) (detachTrack track)
    (updateRoom (Room.setTrack pub none) s)

/-- What twilio-video does to the remote participants when the room gets
disconnected: every subscribed publication is unsubscribed from. -/
def unsubscribeAll (s : State) : State :=
  (subscriptionsOf s).foldl (fun acc sub => emitUnsubscribed sub.1 sub.2 acc) s

/-- The listener `joinRoom` registers with `room.once('disconnected', ...)`:
detach the local preview, clear `window.room`, call `resolve()`.  Resolving
a promise that is already settled changes nothing. -/
def onDisconnected (localVideoTrack : TrackId) (s : State) : State :=
  let s1 := detachTrack localVideoTrack s
  { s1 with
    windowRoom := none
    promise := if s1.promise = Outcome.pending then Outcome.resolved else s1.promise
    log := s1.log ++ [Call.resolve] }

/-- The room emits `'disconnected'`: the one-time listeners are taken off the
room and each runs once. -/
def emitDisconnected (s : State) : State :=
  s.disconnectedOnce.foldl (fun acc track => onDisconnected track acc)
    { s with disconnectedOnce := [], roomState := RoomState.disconnected }

/-- `room.disconnect()` of twilio-video, called by the handler of trigger
`src`: a connected room becomes disconnected, every subscribed publication
of its participants is unsubscribed from and emits `'unsubscribed'`, and
then the room emits `'disconnected'`; on a room that is not connected the
call does nothing. -/
def roomDisconnect (src : Trigger) (s : State) : State :=
  let s1 := { s with log := s.log ++ [Call.disconnect src] }
  if s1.roomState = RoomState.connected then emitDisconnected (unsubscribeAll s1) else s1

/-- The click handler `onLeave`: it takes itself off the button, then
disconnects from the room. -/
def onLeave (s : State) : State :=
  roomDisconnect Trigger.leave { s with leaveL := s.leaveL - 1 }

/-- The callback passed to `connect(...).then`.  It returns the state it
leaves behind and whether it threw. -/
def onConnect (room : Room) (s : State) : State × Except JsError Unit :=
  let s := { s with windowRoom := some room }
  match room.localVideoTracks with
  | [] => (s, Except.error JsError.typeError)
  | localVideoTrack :: _ =>
    let s := attachTrack localVideoTrack s
    let s := room.participants.foldl (fun acc participant => participantConnected participant acc) s
    let s := { s with participantConnectedL := s.participantConnectedL + 1 }
    let s := { s with leaveL := s.leaveL + 1 }
    let s := if s.onbeforeunload then { s with beforeunloadL := s.beforeunloadL + 1 } else s
    let s := if s.onpagehide ≠ PageHide.unset then { s with onpagehide := PageHide.disconnectRoom } else s
    ({ s with disconnectedOnce := s.disconnectedOnce ++ [localVideoTrack] }, Except.ok ())

/-- `joinRoom(token, connectOptions, $room, $leave)` together with the
settlement of `connect`: `connectResult` is the reason `connect` rejected
with or the room it resolved with.  The returned promise is the one of
`.then`: it rejects with the reason of `connect` or with what the callback
threw, and otherwise follows the promise the callback returns, which stays
pending until `resolve()` is called.  A room that `connect` resolves with
is connected. -/
def joinRoom (connectResult : Except JsError Room) (s : State) : State :=
  match connectResult with
  | Except.error e => { s with promise := Outcome.rejected e }
  | Except.ok room =>
    match onConnect room { s with roomState := RoomState.connected } with
    | (s1, Except.error e) => { s1 with promise := Outcome.rejected e }
    | (s1, Except.ok _) => s1

/-- What the environment can do after `joinRoom` was called. -/
inductive Event where
  /-- Publication `pub` emits `'subscribed'` with `track`. -/
  | subscribed (pub : PubId) (track : TrackId)
  /-- Publication `pub` emits `'unsubscribed'` with `track`. -/
  | unsubscribed (pub : PubId) (track : TrackId)
  /-- Participant `part` emits `'trackPublished'` with `publication`. -/
  | trackPublished (part : PartId) (publication : Publication)
  /-- The room emits `'participantConnected'` with `participant`. -/
  | participantConnected (participant : Participant)
  /-- The room emits `'disconnected'` (the `'unsubscribed'` events that come
  before it when the connection is lost are events of their own). -/
  | disconnected
  /-- The leave button is clicked. -/
  | leaveClick
  /-- The window fires `'beforeunload'`. -/
  | beforeunload
  /-- The window fires `'pagehide'`. -/
  | pagehide
  deriving DecidableEq, Repr

/-- One event of the environment: twilio-video first updates the room object
(a publication gets or loses its track, a publication or a participant is
added), then the event is dispatched to the listeners registered in the
state. -/
def fire (e : Event) (s : State) : State :=
  match e with
  | Event.subscribed pub track =>
    callEach (s.subscribedL.count pub) (attachTrack track)
      (updateRoom (Room.setTrack pub (some track)) s)
  | Event.unsubscribed pub track => emitUnsubscribed pub track s
  | Event.trackPublished part publication =>
    callEach (s.trackPublishedL.count part) (trackPublished publication)
      (updateRoom (Room.addPublication part publication) s)
  | Event.participantConnected participant =>
    callEach s.participantConnectedL (participantConnected participant)
      (updateRoom (Room.addParticipant participant) s)
  | Event.disconnected => emitDisconnected s
  | Event.leaveClick => callEach s.leaveL onLeave s
  | Event.beforeunload => callEach s.beforeunloadL (roomDisconnect Trigger.beforeunload) s
  | Event.pagehide =>
    if s.onpagehide = PageHide.disconnectRoom then roomDisconnect Trigger.pagehide s else s

/-- Firing a sequence of events, one after the other. -/
def run (es : List Event) (s : State) : State :=
  es.foldl (fun acc e => fire e acc) s

/-- Number of elements a logged call appended to the container. -/
def Call.mounts : Call → Nat
  | Call.attach _ _ => 1
  | _ => 0

/-- Number of elements a logged call removed. -/
def Call.removes : Call → Nat
  | Call.detach _ els => els.length
  | _ => 0

/-- Total number of elements mounted by `attachTrack` so far. -/
def mounted (s : State) : Nat := (s.log.map Call.mounts).sum

/-- Total number of elements removed by `detachTrack` so far. -/
def removed (s : State) : Nat := (s.log.map Call.removes).sum

/-- Whether a logged call is `attachTrack` on `track`. -/
def Call.isAttachOf (track : TrackId) : Call → Bool
  | Call.attach t _ => t = track
  | _ => false

/-- Whether a logged call is `attachTrack` on any track. -/
def Call.isAttach : Call → Bool
  | Call.attach _ _ => true
  | _ => false

/-- Whether a logged call is `detachTrack` on any track. -/
def Call.isDetach : Call → Bool
  | Call.detach _ _ => true
  | _ => false

/-- Whether a logged call is `detachTrack` on `track`. -/
def Call.isDetachOf (track : TrackId) : Call → Bool
  | Call.detach t _ => t = track
  | _ => false

/-- Number of `attachTrack` calls so far. -/
def attachCalls (s : State) : Nat := s.log.countP Call.isAttach

/-- Number of `detachTrack` calls so far. -/
def detachCalls (s : State) : Nat := s.log.countP Call.isDetach

/-- Number of `attachTrack` calls on `track` so far. -/
def attachCallsOf (s : State) (track : TrackId) : Nat := s.log.countP (Call.isAttachOf track)

/-- Number of `detachTrack` calls on `track` so far. -/
def detachCallsOf (s : State) (track : TrackId) : Nat := s.log.countP (Call.isDetachOf track)

/-- Number of `resolve()` calls so far. -/
def resolveCalls (s : State) : Nat := s.log.count Call.resolve

/-- Number of times `trackPublished` was entered for publication `pub`. -/
def watchCalls (s : State) (pub : PubId) : Nat := s.log.count (Call.watch pub)

/-- Number of `room.disconnect()` calls made by the handler of `src`. -/
def disconnectCalls (s : State) (src : Trigger) : Nat := s.log.count (Call.disconnect src)

/-- The two events of one publication's subscription lifecycle. -/
inductive PubEvent where
  | subscribed
  | unsubscribed
  deriving DecidableEq, Repr

/-- The event of publication `pub` that delivers `track`. -/
def PubEvent.toEvent (pub : PubId) (track : TrackId) : PubEvent → Event
  | PubEvent.subscribed => Event.subscribed pub track
  | PubEvent.unsubscribed => Event.unsubscribed pub track

/-- Every initial segment has at least as many `'subscribed'` as
`'unsubscribed'` events. -/
def SubscribedFirst (es : List PubEvent) : Prop :=
  ∀ n, n ≤ es.length →
    (es.take n).count PubEvent.unsubscribed ≤ (es.take n).count PubEvent.subscribed

/-- As many `'subscribed'` as `'unsubscribed'` events. -/
def Balanced (es : List PubEvent) : Prop :=
  es.count PubEvent.subscribed = es.count PubEvent.unsubscribed

/-- The room of Scenario A: a local video track, one remote participant with
one publication that is already subscribed to. -/
def scenarioRoom (localTrack : TrackId) (moreLocal : List TrackId) (part : PartId)
    (pub : PubId) (remoteTrack : TrackId) : Room :=
  { localVideoTracks := localTrack :: moreLocal
    participants := [{ id := part, tracks := [{ id := pub, track := some remoteTrack }] }] }

/-- State right after the join sequence ran for a room with the local video
tracks `localTrack :: moreLocal` and the remote participants `parts`. -/
def joined (localTrack : TrackId) (moreLocal : List TrackId) (parts : List Participant)
    (onbeforeunload onpagehide : Bool) : State :=
  joinRoom (Except.ok { localVideoTracks := localTrack :: moreLocal, participants := parts })
    (init onbeforeunload onpagehide)

/-- No listener of `joinroom.js` is registered anywhere. -/
def NoListeners (s : State) : Prop :=
  s.subscribedL = [] ∧ s.unsubscribedL = [] ∧ s.trackPublishedL = [] ∧
  s.participantConnectedL = 0 ∧ s.leaveL = 0 ∧ s.beforeunloadL = 0 ∧
  s.onpagehide ≠ PageHide.disconnectRoom ∧ s.disconnectedOnce = []

/-- Bookkeeping between two states: what was mounted minus what was removed
between `s` and `s1` is the change in the number of attached elements. -/
def Accounted (s s1 : State) : Prop :=
  mounted s1 + removed s + s.attachments.length =
    mounted s + removed s1 + s1.attachments.length

/-- An event of one publication together with the track it delivers. -/
def trackEvent (pub : PubId) (e : PubEvent × TrackId) : Event :=
  e.1.toEvent pub e.2

/-- Every `'subscribed'` of the sequence is followed, somewhere later in the
sequence, by an `'unsubscribed'` that delivers the same track. -/
def SubscriptionsEnded : List (PubEvent × TrackId) → Prop
  | [] => True
  | (PubEvent.subscribed, track) :: rest =>
    (PubEvent.unsubscribed, track) ∈ rest ∧ SubscriptionsEnded rest
  | (PubEvent.unsubscribed, _) :: rest => SubscriptionsEnded rest

/-- Deciding `SubscriptionsEnded` by recursion over the sequence. -/
def decideSubscriptionsEnded :
    (es : List (PubEvent × TrackId)) → Decidable (SubscriptionsEnded es)
  | [] => isTrue trivial
  | (PubEvent.subscribed, track) :: rest =>
    match decideSubscriptionsEnded rest with
    | isTrue h =>
      if hm : (PubEvent.unsubscribed, track) ∈ rest then isTrue ⟨hm, h⟩
      else isFalse (fun hc => hm hc.1)
    | isFalse h => isFalse (fun hc => h hc.2)
  | (PubEvent.unsubscribed, _) :: rest => decideSubscriptionsEnded rest

instance (es : List (PubEvent × TrackId)) : Decidable (SubscriptionsEnded es) :=
  decideSubscriptionsEnded es

/-- Whether a logged call is a `room.disconnect()`. -/
def Call.isDisconnect : Call → Bool
  | Call.disconnect _ => true
  | _ => false

/-- Whether a logged call belongs to the teardown of the session:
`room.disconnect()` or `resolve()`. -/
def Call.isTeardown : Call → Bool
  | Call.disconnect _ => true
  | Call.resolve => true
  | _ => false

/-- The events of the teardown: the room emits `'disconnected'`, or one of
the three disconnect triggers fires. -/
def Event.isTeardown : Event → Bool
  | Event.disconnected => true
  | Event.leaveClick => true
  | Event.beforeunload => true
  | Event.pagehide => true
  | _ => false

/-- The part of the state that belongs to the session teardown, with the log
restricted to the calls selected by `q`. -/
def control (q : Call → Bool) (s : State) :
    RoomState × List TrackId × Outcome × Nat × Nat × PageHide × Bool × Nat × List Call :=
  (s.roomState, s.disconnectedOnce, s.promise, s.leaveL, s.beforeunloadL, s.onpagehide,
    s.onbeforeunload, s.participantConnectedL, s.log.filter q)

/-- The part of the state the presentation layer and the caller can see:
the container, the attachments, the promise, `window.room`, the listeners
of room, participants and publications, and every logged call except the
`room.disconnect()` calls. -/
def observable (s : State) :
    List Handle × List (TrackId × Handle) × List Handle × Nat × Outcome × Option Room ×
      List TrackId × List PubId × List PubId × List PartId × Nat × List Call :=
  (s.sink, s.attachments, s.styled, s.nextHandle, s.promise, s.windowRoom, s.disconnectedOnce,
    s.subscribedL, s.unsubscribedL, s.trackPublishedL, s.participantConnectedL,
    s.log.filter (fun c => !c.isDisconnect))

/-- The session is running: the room is connected, the one-time
`'disconnected'` listener with the local track is still on the room, the
leave handler is still on the button, and the promise is pending. -/
def Live (localTrack : TrackId) (s : State) : Prop :=
  s.roomState = RoomState.connected ∧ s.disconnectedOnce = [localTrack] ∧
  s.promise = Outcome.pending ∧ resolveCalls s = 0 ∧
  s.leaveL = 1 ∧ disconnectCalls s Trigger.leave = 0 ∧ s.beforeunloadL ≤ 1

/-- The room is connected and the one-time `'disconnected'` listener is
still on it (the leave handler may already be off the button). -/
def Running (localTrack : TrackId) (s : State) : Prop :=
  s.roomState = RoomState.connected ∧ s.disconnectedOnce = [localTrack] ∧
  s.promise = Outcome.pending ∧ resolveCalls s = 0 ∧
  s.leaveL + disconnectCalls s Trigger.leave = 1 ∧ s.beforeunloadL ≤ 1

/-- The event of a disconnect trigger that fires. -/
def Trigger.toEvent : Trigger → Event
  | Trigger.leave => Event.leaveClick
  | Trigger.beforeunload => Event.beforeunload
  | Trigger.pagehide => Event.pagehide

/-- Whether `joinRoom` wires the trigger: the leave button always, the
`'beforeunload'` listener when `window.onbeforeunload` is truthy, the
`pagehide` handler when `window.onpagehide` is truthy. -/
def wired (onbeforeunload onpagehide : Bool) : Trigger → Bool
  | Trigger.leave => true
  | Trigger.beforeunload => onbeforeunload
  | Trigger.pagehide => onpagehide

/-- The session has ended: the room is disconnected, the one-time listener
ran and is gone, and the promise was resolved by the one `resolve()` call. -/
def Ended (s : State) : Prop :=
  s.roomState = RoomState.disconnected ∧ s.disconnectedOnce = [] ∧
  s.promise = Outcome.resolved ∧ resolveCalls s = 1 ∧
  s.leaveL + disconnectCalls s Trigger.leave = 1 ∧ s.beforeunloadL ≤ 1

/-- A remote participant with two publications, the second one subscribed. -/
def exampleParticipant : Participant :=
  { id := 3, tracks := [{ id := 10, track := none }, { id := 11, track := some 4 }] }

/-- A publication that is not subscribed to. -/
def examplePublication : Publication := { id := 12, track := none }

/-- Two subscription cycles of one publication, the second one with a new
track. -/
def cycleEvents : List (PubEvent × TrackId) :=
  [(PubEvent.subscribed, 9), (PubEvent.unsubscribed, 9), (PubEvent.subscribed, 10),
    (PubEvent.unsubscribed, 10)]

instance (es : List PubEvent) : Decidable (SubscribedFirst es) := by
  unfold SubscribedFirst
  infer_instance

instance (es : List PubEvent) : Decidable (Balanced es) := by
  unfold Balanced
  infer_instance

instance (s : State) : Decidable (NoListeners s) := by
  unfold NoListeners
  infer_instance

instance (s s1 : State) : Decidable (Accounted s s1) := by
  unfold Accounted
  infer_instance

instance (localTrack : TrackId) (s : State) : Decidable (Live localTrack s) := by
  unfold Live
  infer_instance

instance (s : State) : Decidable (Ended s) := by
  unfold Ended
  infer_instance

/-! ## Basic facts about `attachTrack` and `detachTrack` -/

theorem foldl_removeElement (l : List Handle) (s : State) :
    l.foldl removeElement s = { s with sink := s.sink.filter (fun h => decide (h ∉ l)) } := by
  induction l generalizing s with
  | nil => simp
  | cons a l ih =>
    simp only [List.foldl_cons, ih, removeElement, List.filter_filter]
    congr 1
    apply List.filter_congr
    intro h _
    simp [Bool.and_comm]

theorem detachTrack_eq (track : TrackId) (s : State) :
    detachTrack track s =
      { s with
        attachments := s.attachments.filter (fun a => a.1 ≠ track)
        log := s.log ++ [Call.detach track (handlesOf s track)]
        sink := s.sink.filter (fun h => decide (h ∉ handlesOf s track)) } := by
  simp [detachTrack, foldl_removeElement]

theorem handlesOf_detachTrack_self (track : TrackId) (s : State) :
    handlesOf (detachTrack track s) track = [] := by
  simp [detachTrack_eq, handlesOf, List.filter_filter]

theorem handlesOf_detachTrack_other (track t : TrackId) (h : t ≠ track) (s : State) :
    handlesOf (detachTrack track s) t = handlesOf s t := by
  simp only [detachTrack_eq, handlesOf, List.filter_filter]
  congr 1
  apply List.filter_congr
  intro a _
  by_cases ha : a.1 = t <;> simp [ha, h]

/-! ## C8: the frame of `detachTrack` -/

/-- C8. `detachTrack(track)` removes from the container exactly the media
elements the track is attached to and nothing else: the container keeps, in
their order, the elements that are not the track's; afterwards none of the
track's elements is in the container and the track has no element left; the
elements of every other track are untouched; and on a track without
elements the call changes neither the container nor the attachments (the
function is total, so it cannot throw). -/
theorem detachTrack_frame (track : TrackId) (s : State) :
    (detachTrack track s).sink = s.sink.filter (fun h => decide (h ∉ handlesOf s track)) ∧
    (∀ h, h ∈ handlesOf s track → h ∉ (detachTrack track s).sink) ∧
    (∀ h, h ∉ handlesOf s track → (h ∈ (detachTrack track s).sink ↔ h ∈ s.sink)) ∧
    (detachTrack track s).sink.Sublist s.sink ∧
    handlesOf (detachTrack track s) track = [] ∧
    (∀ t, t ≠ track → handlesOf (detachTrack track s) t = handlesOf s t) ∧
    (∀ t, t ≠ track → (∀ h, h ∈ handlesOf s t → h ∉ handlesOf s track) →
      (detachTrack track s).sink.filter (fun h => decide (h ∈ handlesOf s t)) =
        s.sink.filter (fun h => decide (h ∈ handlesOf s t))) ∧
    (handlesOf s track = [] →
      detachTrack track s = { s with log := s.log ++ [Call.detach track []] }) := by
  refine ⟨by simp [detachTrack_eq], ?_, ?_, ?_, handlesOf_detachTrack_self track s,
    fun t ht => handlesOf_detachTrack_other track t ht s, ?_, ?_⟩
  · intro h hh
    simp [detachTrack_eq, hh]
  · intro h hh
    simp [detachTrack_eq, hh]
  · simp only [detachTrack_eq]
    exact List.filter_sublist _
  · intro t _ hdisj
    simp only [detachTrack_eq, List.filter_filter]
    apply List.filter_congr
    intro h _
    by_cases hh : h ∈ handlesOf s t
    · simp [hh, hdisj h hh]
    · simp [hh]
  · intro hnone
    have hatt : s.attachments.filter (fun a => decide (a.1 ≠ track)) = s.attachments := by
      rw [List.filter_eq_self]
      intro a ha
      by_contra hne
      have hmem : a.2 ∈ handlesOf s track := by
        simp only [handlesOf, List.mem_map, List.mem_filter]
        exact ⟨a, ⟨ha, by simpa using hne⟩, rfl⟩
      rw [hnone] at hmem
      exact (List.not_mem_nil _) hmem
    rw [detachTrack_eq, hatt, hnone]
    simp

/-! ## C2, C3, C10: the join sequence itself -/

theorem fire_of_noListeners (s : State) (h : NoListeners s) (e : Event) :
    NoListeners (fire e s) ∧ (fire e s).promise = s.promise ∧ (fire e s).sink = s.sink ∧
    (fire e s).log = s.log := by
  obtain ⟨h1, h2, h3, h4, h5, h6, h7, h8⟩ := h
  cases e <;>
    simp [fire, callEach, emitUnsubscribed, updateRoom, emitDisconnected, NoListeners,
      h1, h2, h3, h4, h5, h6, h7, h8]

theorem run_of_noListeners (es : List Event) (s : State) (h : NoListeners s) :
    NoListeners (run es s) ∧ (run es s).promise = s.promise ∧ (run es s).sink = s.sink ∧
    (run es s).log = s.log := by
  induction es generalizing s with
  | nil => exact ⟨h, rfl, rfl, rfl⟩
  | cons e es ih =>
    have hrun : run (e :: es) s = run es (fire e s) := rfl
    rw [hrun]
    obtain ⟨k0, k1, k2, k3⟩ := fire_of_noListeners s h e
    obtain ⟨l0, l1, l2, l3⟩ := ih _ k0
    exact ⟨l0, l1.trans k1, l2.trans k2, l3.trans k3⟩

/-- C2 (Scenario A). After the join sequence for a room with a local video
track and exactly one remote participant with exactly one publication that
already has a track: the calls performed are `attachTrack` on the local
track, the watch of the publication and `attachTrack` on the remote track,
in this order and nothing else (so, the two tracks being different objects,
`attachTrack` ran exactly once on each); the container holds exactly the
two new elements; `detachTrack` was never called; the promise is still
pending. -/
theorem joinRoom_scenarioA (localTrack : TrackId) (moreLocal : List TrackId) (part : PartId)
    (pub : PubId) (remoteTrack : TrackId) (b1 b2 : Bool) :
    (joinRoom (Except.ok (scenarioRoom localTrack moreLocal part pub remoteTrack))
        (init b1 b2)).log
      = [Call.attach localTrack 0, Call.watch pub, Call.attach remoteTrack 1] ∧
    (joinRoom (Except.ok (scenarioRoom localTrack moreLocal part pub remoteTrack))
        (init b1 b2)).sink = [0, 1] ∧
    (joinRoom (Except.ok (scenarioRoom localTrack moreLocal part pub remoteTrack))
        (init b1 b2)).attachments = [(localTrack, 0), (remoteTrack, 1)] ∧
    attachCalls (joinRoom (Except.ok (scenarioRoom localTrack moreLocal part pub remoteTrack))
        (init b1 b2)) = 2 ∧
    mounted (joinRoom (Except.ok (scenarioRoom localTrack moreLocal part pub remoteTrack))
        (init b1 b2)) = 2 ∧
    detachCalls (joinRoom (Except.ok (scenarioRoom localTrack moreLocal part pub remoteTrack))
        (init b1 b2)) = 0 ∧
    removed (joinRoom (Except.ok (scenarioRoom localTrack moreLocal part pub remoteTrack))
        (init b1 b2)) = 0 ∧
    (joinRoom (Except.ok (scenarioRoom localTrack moreLocal part pub remoteTrack))
        (init b1 b2)).promise = Outcome.pending ∧
    (localTrack ≠ remoteTrack →
      attachCallsOf (joinRoom (Except.ok (scenarioRoom localTrack moreLocal part pub remoteTrack))
        (init b1 b2)) localTrack = 1 ∧
      attachCallsOf (joinRoom (Except.ok (scenarioRoom localTrack moreLocal part pub remoteTrack))
        (init b1 b2)) remoteTrack = 1 ∧
      handlesOf (joinRoom (Except.ok (scenarioRoom localTrack moreLocal part pub remoteTrack))
        (init b1 b2)) localTrack = [0] ∧
      handlesOf (joinRoom (Except.ok (scenarioRoom localTrack moreLocal part pub remoteTrack))
        (init b1 b2)) remoteTrack = [1]) := by
  have hlog : ∀ b1 b2, (joinRoom (Except.ok (scenarioRoom localTrack moreLocal part pub remoteTrack))
      (init b1 b2)).log = [Call.attach localTrack 0, Call.watch pub, Call.attach remoteTrack 1] := by
    intro b1 b2
    cases b1 <;> cases b2 <;> rfl
  have hatt : ∀ b1 b2, (joinRoom (Except.ok (scenarioRoom localTrack moreLocal part pub remoteTrack))
      (init b1 b2)).attachments = [(localTrack, 0), (remoteTrack, 1)] := by
    intro b1 b2
    cases b1 <;> cases b2 <;> rfl
  refine ⟨hlog b1 b2, ?_, hatt b1 b2, ?_, ?_, ?_, ?_, ?_, ?_⟩
  · cases b1 <;> cases b2 <;> rfl
  · cases b1 <;> cases b2 <;> rfl
  · cases b1 <;> cases b2 <;> rfl
  · cases b1 <;> cases b2 <;> rfl
  · cases b1 <;> cases b2 <;> rfl
  · cases b1 <;> cases b2 <;> rfl
  · intro hne
    have hne2 : ¬ remoteTrack = localTrack := fun h => hne h.symm
    simp [attachCallsOf, handlesOf, hlog, hatt, Call.isAttachOf, List.countP_cons, hne, hne2]

/-- C3 (Scenario D). When `connect` rejects with `e`, the promise of
`joinRoom` rejects with the same `e` and this is the only change of the
state: the container, the attachments, every listener table, `window.room`
and the call log are as before the call, and every event fired afterwards
finds no listener and leaves container, log and promise as they are. -/
theorem joinRoom_connect_rejected (e : JsError) (b1 b2 : Bool) :
    joinRoom (Except.error e) (init b1 b2) = { init b1 b2 with promise := Outcome.rejected e } ∧
    (joinRoom (Except.error e) (init b1 b2)).promise = Outcome.rejected e ∧
    (joinRoom (Except.error e) (init b1 b2)).sink = [] ∧
    (joinRoom (Except.error e) (init b1 b2)).log = [] ∧
    NoListeners (joinRoom (Except.error e) (init b1 b2)) ∧
    (∀ es, (run es (joinRoom (Except.error e) (init b1 b2))).promise = Outcome.rejected e ∧
      (run es (joinRoom (Except.error e) (init b1 b2))).sink = [] ∧
      (run es (joinRoom (Except.error e) (init b1 b2))).log = []) := by
  have hno : NoListeners (joinRoom (Except.error e) (init b1 b2)) := by
    cases b2 <;> simp [NoListeners, joinRoom, init]
  refine ⟨rfl, rfl, rfl, rfl, hno, ?_⟩
  intro es
  obtain ⟨_, k1, k2, k3⟩ := run_of_noListeners es _ hno
  exact ⟨k1, k2, k3⟩

/-- C10. When `connect` resolves with a room whose local participant has no
video track, the callback throws the `TypeError` after it has set
`window.room` and before anything else: the promise of `joinRoom` is
rejected with that `TypeError`, nothing is mounted, no listener and no
disconnect trigger is registered, and whatever event is fired afterwards
the promise stays rejected and the container stays empty. -/
theorem joinRoom_no_local_video_track (parts : List Participant) (b1 b2 : Bool) :
    joinRoom (Except.ok { localVideoTracks := [], participants := parts }) (init b1 b2) =
      { init b1 b2 with
        windowRoom := some { localVideoTracks := [], participants := parts }
        roomState := RoomState.connected
        promise := Outcome.rejected JsError.typeError } ∧
    (joinRoom (Except.ok { localVideoTracks := [], participants := parts }) (init b1 b2)).sink = [] ∧
    (joinRoom (Except.ok { localVideoTracks := [], participants := parts }) (init b1 b2)).log = [] ∧
    NoListeners (joinRoom (Except.ok { localVideoTracks := [], participants := parts }) (init b1 b2)) ∧
    (∀ es,
      (run es (joinRoom (Except.ok { localVideoTracks := [], participants := parts })
        (init b1 b2))).promise = Outcome.rejected JsError.typeError ∧
      (run es (joinRoom (Except.ok { localVideoTracks := [], participants := parts })
        (init b1 b2))).sink = [] ∧
      (run es (joinRoom (Except.ok { localVideoTracks := [], participants := parts })
        (init b1 b2))).log = []) := by
  have hno : NoListeners
      (joinRoom (Except.ok { localVideoTracks := [], participants := parts }) (init b1 b2)) := by
    cases b2 <;> simp [NoListeners, joinRoom, onConnect, init]
  refine ⟨rfl, rfl, rfl, hno, ?_⟩
  intro es
  obtain ⟨_, k1, k2, k3⟩ := run_of_noListeners es _ hno
  exact ⟨k1, k2, k3⟩

/-! ## C1: pairing of mounts and removals on one publication -/

theorem callEach_succ (n : Nat) (f : State → State) (s : State) :
    callEach (n + 1) f s = callEach n f (f s) := rfl

theorem callEach_rel (R : State → State → Prop) (hrefl : ∀ s, R s s)
    (htrans : ∀ a b c, R a b → R b c → R a c) (f : State → State) (hf : ∀ s, R s (f s))
    (n : Nat) (s : State) : R s (callEach n f s) := by
  induction n generalizing s with
  | zero => exact hrefl s
  | succ n ih =>
    rw [callEach_succ]
    exact htrans _ _ _ (hf s) (ih (f s))

theorem callEach_frame {β : Type} (p : State → β) (f : State → State)
    (hf : ∀ s, p (f s) = p s) (n : Nat) (s : State) : p (callEach n f s) = p s :=
  callEach_rel (fun a b => p b = p a) (fun _ => rfl) (fun _ _ _ h1 h2 => h2.trans h1) f hf n s

theorem run_cons (e : Event) (es : List Event) (s : State) :
    run (e :: es) s = run es (fire e s) := rfl

theorem run_append (es1 es2 : List Event) (s : State) :
    run (es1 ++ es2) s = run es2 (run es1 s) := by
  simp [run, List.foldl_append]

theorem mounted_attachTrack (t : TrackId) (s : State) :
    mounted (attachTrack t s) = mounted s + 1 := by
  simp [mounted, attachTrack, Call.mounts]

theorem removed_attachTrack (t : TrackId) (s : State) :
    removed (attachTrack t s) = removed s := by
  simp [removed, attachTrack, Call.removes]

theorem mounted_detachTrack (t : TrackId) (s : State) :
    mounted (detachTrack t s) = mounted s := by
  simp [mounted, detachTrack_eq, Call.mounts]

theorem removed_detachTrack (t : TrackId) (s : State) :
    removed (detachTrack t s) = removed s + (handlesOf s t).length := by
  simp [removed, detachTrack_eq, Call.removes]

theorem length_filter_track (t : TrackId) (l : List (TrackId × Handle)) :
    (l.filter (fun a => a.1 = t)).length + (l.filter (fun a => a.1 ≠ t)).length = l.length := by
  induction l with
  | nil => rfl
  | cons a l ih =>
    by_cases h : a.1 = t
    · simp [List.filter_cons, h]
      simp at ih
      omega
    · simp [List.filter_cons, h]
      simp at ih
      omega

theorem accounted_refl (s : State) : Accounted s s := rfl

theorem accounted_trans (a b c : State) (h1 : Accounted a b) (h2 : Accounted b c) :
    Accounted a c := by
  unfold Accounted at *
  omega

theorem accounted_attachTrack (t : TrackId) (s : State) : Accounted s (attachTrack t s) := by
  simp only [Accounted, mounted_attachTrack, removed_attachTrack]
  simp [attachTrack]
  omega

theorem accounted_detachTrack (t : TrackId) (s : State) : Accounted s (detachTrack t s) := by
  have h := length_filter_track t s.attachments
  simp only [Accounted, mounted_detachTrack, removed_detachTrack]
  simp [detachTrack_eq, handlesOf] at h ⊢
  omega

theorem accounted_updateRoom (f : Room → Room) (s : State) : Accounted s (updateRoom f s) := rfl

theorem accounted_fire (pub : PubId) (e : PubEvent × TrackId) (s : State) :
    Accounted s (fire (trackEvent pub e) s) := by
  obtain ⟨ev, t⟩ := e
  cases ev
  · exact accounted_trans _ _ _ (accounted_updateRoom _ s)
      (callEach_rel Accounted accounted_refl accounted_trans _ (accounted_attachTrack t) _ _)
  · exact accounted_trans _ _ _ (accounted_updateRoom _ s)
      (callEach_rel Accounted accounted_refl accounted_trans _ (accounted_detachTrack t) _ _)

theorem accounted_run (pub : PubId) (es : List (PubEvent × TrackId)) (s : State) :
    Accounted s (run (es.map (trackEvent pub)) s) := by
  induction es generalizing s with
  | nil => exact accounted_refl s
  | cons e es ih =>
    rw [List.map_cons, run_cons]
    exact accounted_trans _ _ _ (accounted_fire pub e s) (ih _)

theorem accounted_trackPublished (publication : Publication) (s : State) :
    Accounted s (trackPublished publication s) := by
  cases h : publication.track with
  | none => simp [Accounted, trackPublished, h, mounted, removed, Call.mounts, Call.removes]
  | some t =>
    simp [Accounted, trackPublished, h, mounted, removed, attachTrack, Call.mounts,
      Call.removes]
    omega

theorem listeners_callEach_attach (t : TrackId) (n : Nat) (s : State) :
    (callEach n (attachTrack t) s).subscribedL = s.subscribedL ∧
    (callEach n (attachTrack t) s).unsubscribedL = s.unsubscribedL :=
  ⟨callEach_frame State.subscribedL (attachTrack t) (fun _ => rfl) n s,
    callEach_frame State.unsubscribedL (attachTrack t) (fun _ => rfl) n s⟩

theorem listeners_callEach_detach (t : TrackId) (n : Nat) (s : State) :
    (callEach n (detachTrack t) s).subscribedL = s.subscribedL ∧
    (callEach n (detachTrack t) s).unsubscribedL = s.unsubscribedL :=
  ⟨callEach_frame State.subscribedL (detachTrack t) (fun s => by simp [detachTrack_eq]) n s,
    callEach_frame State.unsubscribedL (detachTrack t) (fun s => by simp [detachTrack_eq]) n s⟩

theorem attachments_callEach_attach (t : TrackId) (n : Nat) (s : State) :
    ∃ added : List (TrackId × Handle),
      (callEach n (attachTrack t) s).attachments = s.attachments ++ added ∧
      added.length = n ∧ ∀ x ∈ added, x.1 = t := by
  induction n generalizing s with
  | zero => exact ⟨[], by simp [callEach], rfl, by simp⟩
  | succ n ih =>
    obtain ⟨added, h1, h2, h3⟩ := ih (attachTrack t s)
    refine ⟨(t, s.nextHandle) :: added, ?_, by simp [h2], ?_⟩
    · rw [callEach_succ, h1]
      simp [attachTrack]
    · intro x hx
      rcases List.mem_cons.mp hx with h | h
      · rw [h]
      · exact h3 x h

theorem attachments_callEach_detach (t : TrackId) (n : Nat) (s : State) :
    (callEach (n + 1) (detachTrack t) s).attachments =
      s.attachments.filter (fun a => a.1 ≠ t) := by
  induction n generalizing s with
  | zero => simp [callEach, detachTrack_eq]
  | succ n ih =>
    rw [callEach_succ, ih]
    simp [detachTrack_eq, List.filter_filter]

theorem attachments_run (pub : PubId) (before : List (TrackId × Handle))
    (es : List (PubEvent × TrackId)) :
    ∀ (s : State) (added : List (TrackId × Handle)),
      s.attachments = before ++ added →
      (∀ t, (PubEvent.unsubscribed, t) ∈ es → ∀ a ∈ before, a.1 ≠ t) →
      1 ≤ s.subscribedL.count pub → 1 ≤ s.unsubscribedL.count pub →
      ∃ left : List (TrackId × Handle),
        (run (es.map (trackEvent pub)) s).attachments = before ++ left ∧
        (left = [] ↔
          (SubscriptionsEnded es ∧ ∀ x ∈ added, (PubEvent.unsubscribed, x.1) ∈ es)) := by
  induction es with
  | nil =>
    intro s added hs _ _ _
    refine ⟨added, hs, ?_⟩
    simp [SubscriptionsEnded, List.eq_nil_iff_forall_not_mem]
  | cons e es ih =>
    intro s added hs hfresh hsub hunsub
    obtain ⟨ev, t⟩ := e
    have hfresh2 : ∀ t, (PubEvent.unsubscribed, t) ∈ es → ∀ a ∈ before, a.1 ≠ t :=
      fun t ht => hfresh t (List.mem_cons_of_mem _ ht)
    cases ev with
    | subscribed =>
      have hfire : fire (trackEvent pub (PubEvent.subscribed, t)) s =
          callEach (s.subscribedL.count pub) (attachTrack t)
            (updateRoom (Room.setTrack pub (some t)) s) := rfl
      obtain ⟨new, h1, h2, h3⟩ := attachments_callEach_attach t (s.subscribedL.count pub)
        (updateRoom (Room.setTrack pub (some t)) s)
      obtain ⟨l1, l2⟩ := listeners_callEach_attach t (s.subscribedL.count pub)
        (updateRoom (Room.setTrack pub (some t)) s)
      have hatt : (fire (trackEvent pub (PubEvent.subscribed, t)) s).attachments =
          before ++ (added ++ new) := by
        rw [hfire, h1]
        simp [updateRoom, hs]
      obtain ⟨left, k1, k2⟩ := ih (fire (trackEvent pub (PubEvent.subscribed, t)) s)
        (added ++ new) hatt hfresh2 (by rw [hfire, l1]; exact hsub)
        (by rw [hfire, l2]; exact hunsub)
      refine ⟨left, by rw [List.map_cons, run_cons]; exact k1, ?_⟩
      rw [k2]
      have hnew : ∃ x, x ∈ new := List.exists_mem_of_length_pos (by omega)
      constructor
      · rintro ⟨hE, hX⟩
        refine ⟨⟨?_, hE⟩, ?_⟩
        · obtain ⟨x, hx⟩ := hnew
          have := hX x (List.mem_append_right _ hx)
          rw [h3 x hx] at this
          exact this
        · intro x hx
          exact List.mem_cons_of_mem _ (hX x (List.mem_append_left _ hx))
      · rintro ⟨⟨ht, hE⟩, hX⟩
        refine ⟨hE, ?_⟩
        intro x hx
        rcases List.mem_append.mp hx with h | h
        · rcases List.mem_cons.mp (hX x h) with h4 | h4
          · simp at h4
          · exact h4
        · rw [h3 x h]
          exact ht
    | unsubscribed =>
      have hfire : fire (trackEvent pub (PubEvent.unsubscribed, t)) s =
          callEach (s.unsubscribedL.count pub) (detachTrack t)
            (updateRoom (Room.setTrack pub none) s) := rfl
      obtain ⟨n, hn⟩ : ∃ n, s.unsubscribedL.count pub = n + 1 :=
        ⟨_, (Nat.sub_add_cancel hunsub).symm⟩
      obtain ⟨l1, l2⟩ := listeners_callEach_detach t (s.unsubscribedL.count pub)
        (updateRoom (Room.setTrack pub none) s)
      have hbefore : before.filter (fun a => decide (a.1 ≠ t)) = before := by
        rw [List.filter_eq_self]
        intro a ha
        simpa using hfresh t (List.mem_cons_self _ _) a ha
      have hatt : (fire (trackEvent pub (PubEvent.unsubscribed, t)) s).attachments =
          before ++ added.filter (fun a => decide (a.1 ≠ t)) := by
        rw [hfire, hn, attachments_callEach_detach]
        simp only [updateRoom, hs, List.filter_append, hbefore]
      obtain ⟨left, k1, k2⟩ := ih (fire (trackEvent pub (PubEvent.unsubscribed, t)) s)
        (added.filter (fun a => decide (a.1 ≠ t))) hatt hfresh2
        (by rw [hfire, l1]; exact hsub) (by rw [hfire, l2]; exact hunsub)
      refine ⟨left, by rw [List.map_cons, run_cons]; exact k1, ?_⟩
      rw [k2]
      constructor
      · rintro ⟨hE, hX⟩
        refine ⟨hE, ?_⟩
        intro x hx
        by_cases hxt : x.1 = t
        · rw [hxt]
          exact List.mem_cons_self _ _
        · exact List.mem_cons_of_mem _ (hX x (List.mem_filter.mpr ⟨hx, by simpa using hxt⟩))
      · rintro ⟨hE, hX⟩
        refine ⟨hE, ?_⟩
        intro x hx
        obtain ⟨hx1, hx2⟩ := List.mem_filter.mp hx
        rcases List.mem_cons.mp (hX x hx1) with h4 | h4
        · simp at h4 hx2
          exact absurd h4 hx2
        · exact h4

/-- C1, as amended. One publication is watched by `trackPublished`; its
`'subscribed'` and `'unsubscribed'` events deliver tracks of their own (a
new track with every subscription, or the same one again), and the tracks
the `'unsubscribed'` events deliver are attached to no element before.
For every finite sequence of such events, in particular for every sequence
in which each initial segment has at least as many `'subscribed'` as
`'unsubscribed'` events and which holds as many of the one as of the
other: the number of elements mounted by `attachTrack` equals the number
removed by `detachTrack` exactly when every track handed to `attachTrack`
(the track the publication already has at watch-time, if any, and the
track of each `'subscribed'`) is delivered by a later `'unsubscribed'`.
A publication that is already subscribed at watch-time and gets no event
has one element mounted and none removed. -/
theorem trackPublished_pairing (s0 : State) (publication : Publication)
    (es : List (PubEvent × TrackId))
    (hfresh : ∀ t, (PubEvent.unsubscribed, t) ∈ es → handlesOf s0 t = []) :
    (mounted (run (es.map (trackEvent publication.id)) (trackPublished publication s0))
        + removed s0 =
      removed (run (es.map (trackEvent publication.id)) (trackPublished publication s0))
        + mounted s0) ↔
    (SubscriptionsEnded es ∧
      ∀ t, publication.track = some t → (PubEvent.unsubscribed, t) ∈ es) := by
  have hacc := accounted_trans _ _ _ (accounted_trackPublished publication s0)
    (accounted_run publication.id es (trackPublished publication s0))
  have hbefore : ∀ t, (PubEvent.unsubscribed, t) ∈ es → ∀ a ∈ s0.attachments, a.1 ≠ t := by
    intro t ht a ha hat
    have hmem : a.2 ∈ handlesOf s0 t := by
      simp only [handlesOf, List.mem_map, List.mem_filter]
      exact ⟨a, ⟨ha, by simpa using hat⟩, rfl⟩
    rw [hfresh t ht] at hmem
    exact (List.not_mem_nil _) hmem
  have hsub : 1 ≤ (trackPublished publication s0).subscribedL.count publication.id := by
    cases h : publication.track <;> simp [trackPublished, attachTrack, h]
  have hunsub : 1 ≤ (trackPublished publication s0).unsubscribedL.count publication.id := by
    cases h : publication.track <;> simp [trackPublished, attachTrack, h]
  cases htrack : publication.track with
  | none =>
    have hs : (trackPublished publication s0).attachments = s0.attachments ++ [] := by
      simp [trackPublished, htrack]
    obtain ⟨left, k1, k2⟩ := attachments_run publication.id s0.attachments es _ [] hs hbefore
      hsub hunsub
    simp only [Accounted, k1, List.length_append] at hacc
    have hleft : left = [] ↔ left.length = 0 := List.length_eq_zero.symm
    constructor
    · intro h
      have h0 : left = [] := hleft.mpr (by omega)
      exact ⟨(k2.mp h0).1, by simp⟩
    · rintro ⟨hE, _⟩
      have h0 : left.length = 0 := hleft.mp (k2.mpr ⟨hE, by simp⟩)
      omega
  | some t0 =>
    have hs : (trackPublished publication s0).attachments =
        s0.attachments ++ [(t0, s0.nextHandle)] := by
      simp [trackPublished, htrack, attachTrack]
    obtain ⟨left, k1, k2⟩ := attachments_run publication.id s0.attachments es _
      [(t0, s0.nextHandle)] hs hbefore hsub hunsub
    simp only [Accounted, k1, List.length_append] at hacc
    have hleft : left = [] ↔ left.length = 0 := List.length_eq_zero.symm
    constructor
    · intro h
      have h0 : left = [] := hleft.mpr (by omega)
      obtain ⟨hE, hX⟩ := k2.mp h0
      refine ⟨hE, ?_⟩
      intro t ht
      have := hX (t0, s0.nextHandle) (List.mem_singleton_self _)
      simp only [Option.some.injEq] at ht
      rw [← ht]
      exact this
    · rintro ⟨hE, hX⟩
      have h0 : left.length = 0 := hleft.mp (k2.mpr ⟨hE, by
        intro x hx
        rw [List.mem_singleton.mp hx]
        exact hX t0 rfl⟩)
      omega

/-! ## C7: every publication of a participant is watched once -/

theorem foldl_frame {α β : Type} (p : State → β) (f : State → α → State)
    (hf : ∀ s a, p (f s a) = p s) (l : List α) (s : State) : p (l.foldl f s) = p s := by
  induction l generalizing s with
  | nil => rfl
  | cons a l ih => rw [List.foldl_cons, ih, hf]

theorem watchCalls_trackPublished (publication : Publication) (q : PubId) (s : State) :
    watchCalls (trackPublished publication s) q =
      watchCalls s q + (if publication.id = q then 1 else 0) := by
  by_cases hq : publication.id = q
  · cases h : publication.track <;>
      simp [watchCalls, trackPublished, attachTrack, h, hq, List.count_append, List.count_cons]
  · have hq2 : ¬ q = publication.id := fun h => hq h.symm
    cases h : publication.track <;>
      simp [watchCalls, trackPublished, attachTrack, h, hq, hq2, List.count_append,
        List.count_cons]

theorem trackPublishedL_trackPublished (publication : Publication) (s : State) :
    (trackPublished publication s).trackPublishedL = s.trackPublishedL := by
  cases h : publication.track <;> simp [trackPublished, attachTrack, h]

theorem watchCalls_foldl (pubs : List Publication) (q : PubId) (s : State) :
    watchCalls (pubs.foldl (fun acc publication => trackPublished publication acc) s) q =
      watchCalls s q + (pubs.map Publication.id).count q := by
  induction pubs generalizing s with
  | nil => simp
  | cons a l ih =>
    rw [List.foldl_cons, ih, watchCalls_trackPublished, List.map_cons, List.count_cons]
    by_cases h : a.id = q
    · simp [h]
      omega
    · simp [h]

theorem trackPublishedL_participantConnected (participant : Participant) (s : State) :
    (participantConnected participant s).trackPublishedL =
      s.trackPublishedL ++ [participant.id] := by
  simp only [participantConnected]
  rw [foldl_frame State.trackPublishedL _ (fun s a => trackPublishedL_trackPublished a s)]

theorem watchCalls_participantConnected (participant : Participant) (q : PubId) (s : State) :
    watchCalls (participantConnected participant s) q =
      watchCalls s q + (participant.tracks.map Publication.id).count q := by
  rw [← watchCalls_foldl]
  rfl

theorem watchCalls_run_trackPublished (part : PartId) (later : List Publication) (q : PubId)
    (s : State) (h : s.trackPublishedL.count part = 1) :
    watchCalls (run (later.map (Event.trackPublished part)) s) q =
      watchCalls s q + (later.map Publication.id).count q := by
  induction later generalizing s with
  | nil => simp [run]
  | cons a l ih =>
    have hfire : fire (Event.trackPublished part a) s =
        trackPublished a (updateRoom (Room.addPublication part a) s) := by
      simp [fire, h, callEach]
    have hw : watchCalls (updateRoom (Room.addPublication part a) s) q = watchCalls s q := rfl
    rw [List.map_cons, run_cons, hfire, ih _ (by rw [trackPublishedL_trackPublished]; exact h),
      watchCalls_trackPublished, hw, List.map_cons, List.count_cons]
    by_cases h2 : a.id = q
    · simp [h2]
      omega
    · simp [h2]

/-- C7. A participant that carries no `'trackPublished'` listener yet is
passed to `participantConnected`; afterwards the publications `later` are
announced by `'trackPublished'` events of that participant.  The listener
is registered by the same call that enumerates `participant.tracks`, and
when the publications are distinct, each publication of the enumeration
and each announced publication is watched by `trackPublished` exactly once,
and no other publication is watched. -/
theorem participantConnected_watches_once (s : State) (participant : Participant)
    (later : List Publication)
    (hnew : participant.id ∉ s.trackPublishedL)
    (hdistinct : ((participant.tracks ++ later).map Publication.id).Nodup) :
    (participantConnected participant s).trackPublishedL =
      s.trackPublishedL ++ [participant.id] ∧
    (∀ p, p ∈ participant.tracks →
      watchCalls (participantConnected participant s) p.id = watchCalls s p.id + 1) ∧
    (∀ p, p ∈ participant.tracks ++ later →
      watchCalls (run (later.map (Event.trackPublished participant.id))
        (participantConnected participant s)) p.id = watchCalls s p.id + 1) ∧
    (∀ q, q ∉ (participant.tracks ++ later).map Publication.id →
      watchCalls (run (later.map (Event.trackPublished participant.id))
        (participantConnected participant s)) q = watchCalls s q) := by
  have hcount : (participantConnected participant s).trackPublishedL.count participant.id = 1 := by
    rw [trackPublishedL_participantConnected, List.count_append,
      List.count_eq_zero_of_not_mem hnew]
    simp
  have hall : ∀ q, watchCalls (run (later.map (Event.trackPublished participant.id))
        (participantConnected participant s)) q =
      watchCalls s q + ((participant.tracks ++ later).map Publication.id).count q := by
    intro q
    rw [watchCalls_run_trackPublished _ _ _ _ hcount, watchCalls_participantConnected,
      List.map_append, List.count_append]
    omega
  refine ⟨trackPublishedL_participantConnected participant s, ?_, ?_, ?_⟩
  · intro p hp
    rw [watchCalls_participantConnected]
    have hnd : (participant.tracks.map Publication.id).Nodup := by
      rw [List.map_append] at hdistinct
      exact (List.nodup_append.mp hdistinct).1
    rw [List.count_eq_one_of_mem hnd (List.mem_map_of_mem _ hp)]
  · intro p hp
    rw [hall, List.count_eq_one_of_mem hdistinct (List.mem_map_of_mem _ hp)]
  · intro q hq
    rw [hall, List.count_eq_zero_of_not_mem hq, Nat.add_zero]

/-! ## The session teardown: frame lemmas -/

theorem control_attachTrack (q : Call → Bool) (hqa : ∀ t h, q (Call.attach t h) = false)
    (t : TrackId) (s : State) : control q (attachTrack t s) = control q s := by
  simp [control, attachTrack, List.filter_append, hqa]

theorem control_detachTrack (q : Call → Bool) (t : TrackId)
    (hqd : ∀ hs, q (Call.detach t hs) = false) (s : State) :
    control q (detachTrack t s) = control q s := by
  simp [control, detachTrack_eq, List.filter_append, hqd]

theorem control_emitUnsubscribed (q : Call → Bool) (pub : PubId) (t : TrackId)
    (hqd : ∀ hs, q (Call.detach t hs) = false) (s : State) :
    control q (emitUnsubscribed pub t s) = control q s :=
  callEach_frame (control q) (detachTrack t) (control_detachTrack q t hqd) _
    (updateRoom (Room.setTrack pub none) s)

theorem control_unsubscribeEach (q : Call → Bool) (subs : List (PubId × TrackId))
    (hqd : ∀ sub ∈ subs, ∀ hs, q (Call.detach sub.2 hs) = false) (s : State) :
    control q (subs.foldl (fun acc sub => emitUnsubscribed sub.1 sub.2 acc) s) = control q s := by
  induction subs generalizing s with
  | nil => rfl
  | cons a l ih =>
    rw [List.foldl_cons, ih (fun sub h => hqd sub (List.mem_cons_of_mem _ h)),
      control_emitUnsubscribed q a.1 a.2 (hqd a (List.mem_cons_self _ _))]

theorem control_unsubscribeAll (q : Call → Bool)
    (s : State) (hqd : ∀ sub ∈ subscriptionsOf s, ∀ hs, q (Call.detach sub.2 hs) = false) :
    control q (unsubscribeAll s) = control q s :=
  control_unsubscribeEach q (subscriptionsOf s) hqd s

theorem control_trackPublished (q : Call → Bool) (hqa : ∀ t h, q (Call.attach t h) = false)
    (hqw : ∀ p, q (Call.watch p) = false) (publication : Publication) (s : State) :
    control q (trackPublished publication s) = control q s := by
  cases h : publication.track <;>
    simp [control, trackPublished, attachTrack, h, List.filter_append, hqa, hqw]

theorem control_participantConnected (q : Call → Bool)
    (hqa : ∀ t h, q (Call.attach t h) = false) (hqw : ∀ p, q (Call.watch p) = false)
    (participant : Participant) (s : State) :
    control q (participantConnected participant s) = control q s := by
  have h := foldl_frame (control q) (fun acc publication => trackPublished publication acc)
    (fun s a => control_trackPublished q hqa hqw a s) participant.tracks s
  simp only [control, participantConnected] at h ⊢
  exact h

theorem control_fire (q : Call → Bool) (hqa : ∀ t h, q (Call.attach t h) = false)
    (hqd : ∀ t hs, q (Call.detach t hs) = false) (hqw : ∀ p, q (Call.watch p) = false)
    (e : Event) (he : e.isTeardown = false) (s : State) :
    control q (fire e s) = control q s := by
  cases e with
  | subscribed pub t =>
    exact callEach_frame (control q) (attachTrack t) (control_attachTrack q hqa t) _
      (updateRoom (Room.setTrack pub (some t)) s)
  | unsubscribed pub t => exact control_emitUnsubscribed q pub t (hqd t) s
  | trackPublished part publication =>
    exact callEach_frame (control q) (trackPublished publication)
      (control_trackPublished q hqa hqw publication) _
      (updateRoom (Room.addPublication part publication) s)
  | participantConnected participant =>
    exact callEach_frame (control q) (participantConnected participant)
      (control_participantConnected q hqa hqw participant) _
      (updateRoom (Room.addParticipant participant) s)
  | disconnected => simp [Event.isTeardown] at he
  | leaveClick => simp [Event.isTeardown] at he
  | beforeunload => simp [Event.isTeardown] at he
  | pagehide => simp [Event.isTeardown] at he

theorem resolveCalls_eq (s : State) :
    resolveCalls s = (s.log.filter Call.isTeardown).count Call.resolve := by
  rw [resolveCalls, List.count_filter]
  rfl

theorem disconnectCalls_eq (s : State) (src : Trigger) :
    disconnectCalls s src = (s.log.filter Call.isTeardown).count (Call.disconnect src) := by
  rw [disconnectCalls, List.count_filter]
  rfl

theorem live_of_control (localTrack : TrackId) (s s1 : State)
    (h : control Call.isTeardown s1 = control Call.isTeardown s) (hl : Live localTrack s) :
    Live localTrack s1 := by
  simp only [control, Prod.mk.injEq] at h
  obtain ⟨h1, h2, h3, h4, h5, _, _, _, h10⟩ := h
  simp only [Live, resolveCalls_eq, disconnectCalls_eq] at hl ⊢
  rw [h1, h2, h3, h4, h5, h10]
  exact hl

theorem ended_of_control (s s1 : State)
    (h : control Call.isTeardown s1 = control Call.isTeardown s) (hl : Ended s) :
    Ended s1 := by
  simp only [control, Prod.mk.injEq] at h
  obtain ⟨h1, h2, h3, h4, h5, _, _, _, h10⟩ := h
  simp only [Ended, resolveCalls_eq, disconnectCalls_eq] at hl ⊢
  rw [h1, h2, h3, h4, h5, h10]
  exact hl

theorem control_fire_teardownCalls (e : Event) (he : e.isTeardown = false) (s : State) :
    control Call.isTeardown (fire e s) = control Call.isTeardown s :=
  control_fire Call.isTeardown (fun _ _ => rfl) (fun _ _ => rfl) (fun _ => rfl) e he s

/-! ## The session teardown: the state after the join and the single steps -/

theorem control_joined (q : Call → Bool) (hqa : ∀ t h, q (Call.attach t h) = false)
    (hqw : ∀ p, q (Call.watch p) = false) (localTrack : TrackId) (moreLocal : List TrackId)
    (parts : List Participant) (b1 b2 : Bool) :
    control q (joined localTrack moreLocal parts b1 b2) =
      (RoomState.connected, [localTrack], Outcome.pending, 1, (if b1 then 1 else 0),
        (if b2 then PageHide.disconnectRoom else PageHide.unset), b1, 1, []) := by
  have hP := foldl_frame (control q) (fun acc participant => participantConnected participant acc)
    (fun s a => control_participantConnected q hqa hqw a s) parts
    (attachTrack localTrack { init b1 b2 with
      roomState := RoomState.connected
      windowRoom := some { localVideoTracks := localTrack :: moreLocal, participants := parts } })
  rw [control_attachTrack q hqa] at hP
  simp only [joined, joinRoom, onConnect]
  generalize List.foldl (fun acc participant => participantConnected participant acc)
    (attachTrack localTrack { init b1 b2 with
      roomState := RoomState.connected
      windowRoom := some { localVideoTracks := localTrack :: moreLocal, participants := parts } })
    parts = sP at hP ⊢
  simp only [control, init, Prod.mk.injEq] at hP
  obtain ⟨h1, h2, h3, h4, h5, h6, h7, h8, h9⟩ := hP
  cases b1 <;> cases b2 <;> simp_all [control]

theorem live_joined (localTrack : TrackId) (moreLocal : List TrackId)
    (parts : List Participant) (b1 b2 : Bool) :
    Live localTrack (joined localTrack moreLocal parts b1 b2) := by
  have h := control_joined Call.isTeardown (fun _ _ => rfl) (fun _ => rfl)
    localTrack moreLocal parts b1 b2
  simp only [control, Prod.mk.injEq] at h
  obtain ⟨h1, h2, h3, h4, h5, _, _, _, h10⟩ := h
  simp only [Live, resolveCalls_eq, disconnectCalls_eq, h1, h2, h3, h4, h5, h10]
  cases b1 <;> simp

theorem windowRoom_joined (localTrack : TrackId) (moreLocal : List TrackId)
    (parts : List Participant) (b1 b2 : Bool) :
    (joined localTrack moreLocal parts b1 b2).windowRoom =
      some { localVideoTracks := localTrack :: moreLocal, participants := parts } := by
  have hpc : ∀ (p : Participant) (s : State), (participantConnected p s).windowRoom = s.windowRoom := by
    intro p s
    have htp : ∀ (a : Publication) (s : State), (trackPublished a s).windowRoom = s.windowRoom := by
      intro a s
      cases h : a.track <;> simp [trackPublished, attachTrack, h]
    simp only [participantConnected]
    exact foldl_frame State.windowRoom _ (fun s a => htp a s) _ s
  have hP := foldl_frame State.windowRoom
    (fun acc participant => participantConnected participant acc) (fun s a => hpc a s) parts
    (attachTrack localTrack { init b1 b2 with
      roomState := RoomState.connected
      windowRoom := some { localVideoTracks := localTrack :: moreLocal, participants := parts } })
  simp only [joined, joinRoom, onConnect]
  generalize List.foldl (fun acc participant => participantConnected participant acc)
    (attachTrack localTrack { init b1 b2 with
      roomState := RoomState.connected
      windowRoom := some { localVideoTracks := localTrack :: moreLocal, participants := parts } })
    parts = sP at hP ⊢
  simp only [attachTrack] at hP
  split_ifs <;> exact hP

theorem onDisconnected_eq (localTrack : TrackId) (s : State) :
    onDisconnected localTrack s =
      { s with
        attachments := s.attachments.filter (fun a => a.1 ≠ localTrack)
        sink := s.sink.filter (fun h => decide (h ∉ handlesOf s localTrack))
        windowRoom := none
        promise := if s.promise = Outcome.pending then Outcome.resolved else s.promise
        log := s.log ++ [Call.detach localTrack (handlesOf s localTrack), Call.resolve] } := by
  simp [onDisconnected, detachTrack_eq]

theorem emitDisconnected_live (localTrack : TrackId) (s : State)
    (h : s.disconnectedOnce = [localTrack]) :
    emitDisconnected s =
      onDisconnected localTrack
        { s with disconnectedOnce := [], roomState := RoomState.disconnected } := by
  simp [emitDisconnected, h]

theorem emitDisconnected_ended (s : State) (h : s.disconnectedOnce = []) :
    emitDisconnected s = { s with roomState := RoomState.disconnected } := by
  cases s
  simp_all [emitDisconnected]

theorem roomDisconnect_connected (src : Trigger) (s : State)
    (h : s.roomState = RoomState.connected) :
    roomDisconnect src s =
      emitDisconnected (unsubscribeAll { s with log := s.log ++ [Call.disconnect src] }) := by
  simp [roomDisconnect, h]

theorem roomDisconnect_ended (src : Trigger) (s : State)
    (h : s.roomState = RoomState.disconnected) :
    roomDisconnect src s = { s with log := s.log ++ [Call.disconnect src] } := by
  simp [roomDisconnect, h]

theorem running_of_live (localTrack : TrackId) (s : State) (h : Live localTrack s) :
    Running localTrack s := by
  obtain ⟨h1, h2, h3, h4, h5, h6, h7⟩ := h
  exact ⟨h1, h2, h3, h4, by rw [h5, h6], h7⟩

theorem running_of_control (localTrack : TrackId) (s s1 : State)
    (h : control Call.isTeardown s1 = control Call.isTeardown s) (hl : Running localTrack s) :
    Running localTrack s1 := by
  simp only [control, Prod.mk.injEq] at h
  obtain ⟨h1, h2, h3, h4, h5, _, _, _, h10⟩ := h
  simp only [Running, resolveCalls_eq, disconnectCalls_eq] at hl ⊢
  rw [h1, h2, h3, h4, h5, h10]
  exact hl

theorem running_emitDisconnected (localTrack : TrackId) (s : State)
    (h : Running localTrack s) :
    Ended (emitDisconnected s) ∧
    (emitDisconnected s).log =
      s.log ++ [Call.detach localTrack (handlesOf s localTrack), Call.resolve] ∧
    (emitDisconnected s).sink =
      s.sink.filter (fun h => decide (h ∉ handlesOf s localTrack)) ∧
    handlesOf (emitDisconnected s) localTrack = [] ∧
    (emitDisconnected s).leaveL = s.leaveL := by
  obtain ⟨h1, h2, h3, h4, h5, h7⟩ := h
  simp only [resolveCalls, disconnectCalls] at h4 h5
  rw [emitDisconnected_live localTrack s h2, onDisconnected_eq]
  refine ⟨?_, rfl, rfl, ?_, rfl⟩
  · simp [Ended, resolveCalls, disconnectCalls, h3, h4, h5, h7, List.count_append,
      List.count_cons]
  · simp [handlesOf, List.filter_filter]

theorem live_fire_disconnected (localTrack : TrackId) (s : State) (h : Live localTrack s) :
    Ended (fire Event.disconnected s) ∧
    (fire Event.disconnected s).log =
      s.log ++ [Call.detach localTrack (handlesOf s localTrack), Call.resolve] ∧
    (fire Event.disconnected s).sink =
      s.sink.filter (fun h => decide (h ∉ handlesOf s localTrack)) ∧
    handlesOf (fire Event.disconnected s) localTrack = [] := by
  obtain ⟨k1, k2, k3, k4, _⟩ := running_emitDisconnected localTrack s (running_of_live _ s h)
  exact ⟨k1, k2, k3, k4⟩

theorem running_disconnecting (localTrack : TrackId) (s1 : State)
    (h : Running localTrack s1)
    (hremote : ∀ sub ∈ subscriptionsOf s1, sub.2 ≠ localTrack) :
    Ended (emitDisconnected (unsubscribeAll s1)) ∧
    (emitDisconnected (unsubscribeAll s1)).leaveL = s1.leaveL ∧
    handlesOf (emitDisconnected (unsubscribeAll s1)) localTrack = [] ∧
    detachCallsOf (emitDisconnected (unsubscribeAll s1)) localTrack =
      detachCallsOf s1 localTrack + 1 ∧
    (∀ src, disconnectCalls (emitDisconnected (unsubscribeAll s1)) src =
      disconnectCalls s1 src) := by
  have hc := control_unsubscribeAll Call.isTeardown s1 (fun _ _ _ => rfl)
  have hrun := running_of_control localTrack s1 _ hc h
  obtain ⟨k1, k2, _, k4, k5⟩ := running_emitDisconnected localTrack _ hrun
  have hd := control_unsubscribeAll (Call.isDetachOf localTrack) s1 (by
    intro sub hsub hs
    simp [Call.isDetachOf, hremote sub hsub])
  simp only [control, Prod.mk.injEq] at hc hd
  refine ⟨k1, by rw [k5]; exact hc.2.2.2.1, k4, ?_, ?_⟩
  · rw [detachCallsOf, k2, List.countP_append, List.countP_eq_length_filter,
      hd.2.2.2.2.2.2.2.2, ← List.countP_eq_length_filter]
    simp [detachCallsOf, Call.isDetachOf]
  · intro src
    have h1 : disconnectCalls (emitDisconnected (unsubscribeAll s1)) src =
        disconnectCalls (unsubscribeAll s1) src := by
      simp [disconnectCalls, k2, List.count_append, List.count_cons]
    rw [h1, disconnectCalls_eq, disconnectCalls_eq, hc.2.2.2.2.2.2.2.2]

theorem ended_disconnecting (localTrack : TrackId) (s1 : State) (h : Running localTrack s1) :
    Ended (emitDisconnected (unsubscribeAll s1)) ∧
    (emitDisconnected (unsubscribeAll s1)).leaveL = s1.leaveL := by
  have hc := control_unsubscribeAll Call.isTeardown s1 (fun _ _ _ => rfl)
  have hrun := running_of_control localTrack s1 _ hc h
  obtain ⟨k1, _, _, _, k5⟩ := running_emitDisconnected localTrack _ hrun
  simp only [control, Prod.mk.injEq] at hc
  exact ⟨k1, by rw [k5]; exact hc.2.2.2.1⟩

theorem running_onLeave (localTrack : TrackId) (s : State) (h : Live localTrack s) :
    Running localTrack
      { s with leaveL := s.leaveL - 1, log := s.log ++ [Call.disconnect Trigger.leave] } := by
  obtain ⟨h1, h2, h3, h4, h5, h6, h7⟩ := h
  simp only [resolveCalls, disconnectCalls] at h4 h6
  simp [Running, resolveCalls, disconnectCalls, h1, h2, h3, h4, h5, h6, h7, List.count_append,
    List.count_cons]

theorem running_logged (src : Trigger) (hsrc : src ≠ Trigger.leave) (localTrack : TrackId)
    (s : State) (h : Live localTrack s) :
    Running localTrack { s with log := s.log ++ [Call.disconnect src] } := by
  obtain ⟨h1, h2, h3, h4, h5, h6, h7⟩ := h
  simp only [resolveCalls, disconnectCalls] at h4 h6
  have hne : ¬ (Trigger.leave = src) := fun h => hsrc h.symm
  simp [Running, resolveCalls, disconnectCalls, h1, h2, h3, h4, h5, h6, h7, List.count_append,
    List.count_cons, hne]

theorem fire_leaveClick_live (localTrack : TrackId) (s : State) (h : Live localTrack s) :
    fire Event.leaveClick s =
      emitDisconnected (unsubscribeAll
        { s with leaveL := s.leaveL - 1, log := s.log ++ [Call.disconnect Trigger.leave] }) := by
  have hfire : fire Event.leaveClick s = onLeave s := by
    simp [fire, h.2.2.2.2.1, callEach]
  rw [hfire, onLeave,
    roomDisconnect_connected Trigger.leave { s with leaveL := s.leaveL - 1 } h.1]

theorem live_fire_leaveClick (localTrack : TrackId) (s : State) (h : Live localTrack s) :
    Ended (fire Event.leaveClick s) ∧ (fire Event.leaveClick s).leaveL = 0 := by
  rw [fire_leaveClick_live localTrack s h]
  obtain ⟨k1, k2⟩ := ended_disconnecting localTrack _ (running_onLeave localTrack s h)
  refine ⟨k1, ?_⟩
  rw [k2]
  simp [h.2.2.2.2.1]

theorem live_roomDisconnect (src : Trigger) (hsrc : src ≠ Trigger.leave) (localTrack : TrackId)
    (s : State) (h : Live localTrack s) :
    Ended (roomDisconnect src s) := by
  rw [roomDisconnect_connected src s h.1]
  exact (ended_disconnecting localTrack _ (running_logged src hsrc localTrack s h)).1

theorem ended_roomDisconnect (src : Trigger) (hsrc : src ≠ Trigger.leave) (s : State)
    (h : Ended s) :
    Ended (roomDisconnect src s) ∧ observable (roomDisconnect src s) = observable s ∧
    (roomDisconnect src s).leaveL = s.leaveL := by
  obtain ⟨h1, h2, h3, h4, h5, h6⟩ := h
  simp only [resolveCalls, disconnectCalls] at h4 h5
  have hne : ¬ (Trigger.leave = src) := fun h => hsrc h.symm
  rw [roomDisconnect_ended src s h1]
  refine ⟨?_, ?_, rfl⟩
  · simp [Ended, resolveCalls, disconnectCalls, h1, h2, h3, h4, h5, h6, List.count_append,
      List.count_cons, hne]
  · simp [observable, List.filter_append, Call.isDisconnect]

theorem live_fire_teardown (localTrack : TrackId) (s : State) (h : Live localTrack s)
    (e : Event) (he : e.isTeardown = true) :
    fire e s = s ∨ Ended (fire e s) := by
  cases e with
  | subscribed pub t => simp [Event.isTeardown] at he
  | unsubscribed pub t => simp [Event.isTeardown] at he
  | trackPublished part publication => simp [Event.isTeardown] at he
  | participantConnected participant => simp [Event.isTeardown] at he
  | disconnected => exact Or.inr (live_fire_disconnected localTrack s h).1
  | leaveClick => exact Or.inr (live_fire_leaveClick localTrack s h).1
  | beforeunload =>
    have hb : s.beforeunloadL = 0 ∨ s.beforeunloadL = 1 := by
      have := h.2.2.2.2.2.2
      omega
    rcases hb with hb | hb
    · exact Or.inl (by simp [fire, hb, callEach])
    · have hfire : fire Event.beforeunload s = roomDisconnect Trigger.beforeunload s := by
        simp [fire, hb, callEach]
      rw [hfire]
      exact Or.inr (live_roomDisconnect Trigger.beforeunload (by decide) localTrack s h)
  | pagehide =>
    by_cases hp : s.onpagehide = PageHide.disconnectRoom
    · have hfire : fire Event.pagehide s = roomDisconnect Trigger.pagehide s := by
        simp [fire, hp]
      rw [hfire]
      exact Or.inr (live_roomDisconnect Trigger.pagehide (by decide) localTrack s h)
    · exact Or.inl (by simp [fire, hp])

theorem ended_fire_teardown (s : State) (h : Ended s) (e : Event) (he : e.isTeardown = true) :
    Ended (fire e s) ∧ observable (fire e s) = observable s ∧
    (s.leaveL = 0 → (fire e s).leaveL = 0) ∧
    (e = Event.leaveClick → (fire e s).leaveL = 0) := by
  cases e with
  | subscribed pub t => simp [Event.isTeardown] at he
  | unsubscribed pub t => simp [Event.isTeardown] at he
  | trackPublished part publication => simp [Event.isTeardown] at he
  | participantConnected participant => simp [Event.isTeardown] at he
  | disconnected =>
    have hfire : fire Event.disconnected s = emitDisconnected s := rfl
    rw [hfire, emitDisconnected_ended s h.2.1]
    obtain ⟨h1, h2, h3, h4, h5, h6⟩ := h
    refine ⟨⟨rfl, h2, h3, h4, h5, h6⟩, rfl, fun h => h, by simp⟩
  | leaveClick =>
    have hb : s.leaveL = 0 ∨ s.leaveL = 1 := by
      have := h.2.2.2.2.1
      omega
    rcases hb with hb | hb
    · have hfire : fire Event.leaveClick s = s := by simp [fire, hb, callEach]
      rw [hfire]
      exact ⟨h, rfl, fun h => h, fun _ => hb⟩
    · have hfire : fire Event.leaveClick s = onLeave s := by simp [fire, hb, callEach]
      obtain ⟨h1, h2, h3, h4, h5, h6⟩ := h
      simp only [resolveCalls, disconnectCalls] at h4 h5
      rw [hfire, onLeave, roomDisconnect_ended Trigger.leave { s with leaveL := s.leaveL - 1 } h1]
      refine ⟨?_, ?_, ?_, ?_⟩
      · have h7 : List.count (Call.disconnect Trigger.leave) s.log = 0 := by omega
        simp [Ended, resolveCalls, disconnectCalls, h1, h2, h3, h4, h6, h7, hb,
          List.count_append, List.count_cons]
      · simp [observable, List.filter_append, Call.isDisconnect]
      · intro _
        simp [hb]
      · intro _
        simp [hb]
  | beforeunload =>
    have hb : s.beforeunloadL = 0 ∨ s.beforeunloadL = 1 := by
      have := h.2.2.2.2.2
      omega
    rcases hb with hb | hb
    · have hfire : fire Event.beforeunload s = s := by simp [fire, hb, callEach]
      rw [hfire]
      exact ⟨h, rfl, fun h => h, by simp⟩
    · have hfire : fire Event.beforeunload s = roomDisconnect Trigger.beforeunload s := by
        simp [fire, hb, callEach]
      rw [hfire]
      obtain ⟨k1, k2, k3⟩ := ended_roomDisconnect Trigger.beforeunload (by decide) s h
      exact ⟨k1, k2, fun h => by rw [k3, h], by simp⟩
  | pagehide =>
    by_cases hp : s.onpagehide = PageHide.disconnectRoom
    · have hfire : fire Event.pagehide s = roomDisconnect Trigger.pagehide s := by
        simp [fire, hp]
      rw [hfire]
      obtain ⟨k1, k2, k3⟩ := ended_roomDisconnect Trigger.pagehide (by decide) s h
      exact ⟨k1, k2, fun h => by rw [k3, h], by simp⟩
    · have hfire : fire Event.pagehide s = s := by simp [fire, hp]
      rw [hfire]
      exact ⟨h, rfl, fun h => h, by simp⟩

theorem live_fire_watcher (localTrack : TrackId) (s : State) (h : Live localTrack s)
    (e : Event) (he : e.isTeardown = false) : Live localTrack (fire e s) :=
  live_of_control localTrack s (fire e s) (control_fire_teardownCalls e he s) h

theorem ended_fire_watcher (s : State) (h : Ended s) (e : Event) (he : e.isTeardown = false) :
    Ended (fire e s) ∧ (fire e s).leaveL = s.leaveL := by
  have hc := control_fire_teardownCalls e he s
  refine ⟨ended_of_control s (fire e s) hc h, ?_⟩
  simp only [control, Prod.mk.injEq] at hc
  exact hc.2.2.2.1

theorem ended_fire (s : State) (h : Ended s) (e : Event) :
    Ended (fire e s) ∧ (s.leaveL = 0 → (fire e s).leaveL = 0) := by
  cases he : e.isTeardown
  · obtain ⟨k1, k2⟩ := ended_fire_watcher s h e he
    exact ⟨k1, fun h => by rw [k2, h]⟩
  · obtain ⟨k1, _, k3, _⟩ := ended_fire_teardown s h e he
    exact ⟨k1, k3⟩

theorem phase_fire (localTrack : TrackId) (s : State) (h : Live localTrack s ∨ Ended s)
    (e : Event) : Live localTrack (fire e s) ∨ Ended (fire e s) := by
  rcases h with h | h
  · cases he : e.isTeardown
    · exact Or.inl (live_fire_watcher localTrack s h e he)
    · rcases live_fire_teardown localTrack s h e he with k | k
      · rw [k]
        exact Or.inl h
      · exact Or.inr k
  · exact Or.inr (ended_fire s h e).1

theorem phase_run (localTrack : TrackId) (es : List Event) (s : State)
    (h : Live localTrack s ∨ Ended s) : Live localTrack (run es s) ∨ Ended (run es s) := by
  induction es generalizing s with
  | nil => exact h
  | cons e es ih =>
    rw [run_cons]
    exact ih _ (phase_fire localTrack s h e)

theorem ended_run (es : List Event) (s : State) (h : Ended s) :
    Ended (run es s) ∧ (s.leaveL = 0 → (run es s).leaveL = 0) := by
  induction es generalizing s with
  | nil => exact ⟨h, fun h => h⟩
  | cons e es ih =>
    rw [run_cons]
    obtain ⟨k1, k2⟩ := ended_fire s h e
    obtain ⟨k3, k4⟩ := ih _ k1
    exact ⟨k3, fun h => k4 (k2 h)⟩

theorem mem_split (e : Event) (es : List Event) (h : e ∈ es) :
    ∃ es1 es2, es = es1 ++ e :: es2 :=
  List.append_of_mem h

theorem run_split (e : Event) (es1 es2 : List Event) (s : State) :
    run (es1 ++ e :: es2) s = run es2 (fire e (run es1 s)) := by
  rw [run_append, run_cons]

theorem ended_run_teardown (ts : List Event) (s : State) (h : Ended s)
    (hts : ∀ e ∈ ts, e.isTeardown = true) :
    Ended (run ts s) ∧ observable (run ts s) = observable s := by
  induction ts generalizing s with
  | nil => exact ⟨h, rfl⟩
  | cons e ts ih =>
    rw [run_cons]
    obtain ⟨k1, k2, _, _⟩ := ended_fire_teardown s h e (hts e (List.mem_cons_self _ _))
    obtain ⟨k3, k4⟩ := ih _ k1 (fun e he => hts e (List.mem_cons_of_mem _ he))
    exact ⟨k3, k4.trans k2⟩

theorem countP_filter_notDisconnect (p : Call → Bool)
    (hp : ∀ src, p (Call.disconnect src) = false) (l : List Call) :
    (l.filter (fun c => !c.isDisconnect)).countP p = l.countP p := by
  rw [List.countP_filter]
  apply List.countP_congr
  intro c _
  cases c <;> simp [Call.isDisconnect, hp]

theorem calls_of_observable (s s1 : State) (h : observable s1 = observable s) :
    s1.sink = s.sink ∧ attachCalls s1 = attachCalls s ∧ detachCalls s1 = detachCalls s ∧
    (∀ t, detachCallsOf s1 t = detachCallsOf s t) ∧ mounted s1 = mounted s ∧
    removed s1 = removed s ∧ (∀ t, handlesOf s1 t = handlesOf s t) := by
  simp only [observable, Prod.mk.injEq] at h
  obtain ⟨k1, k2, _, _, _, _, _, _, _, _, _, k12⟩ := h
  have hm : ∀ (f : Call → Nat), (∀ src, f (Call.disconnect src) = 0) → ∀ l : List Call,
      ((l.filter (fun c => !c.isDisconnect)).map f).sum = (l.map f).sum := by
    intro f hf l
    have ha : ∀ t h, Call.isDisconnect (Call.attach t h) = false := fun _ _ => rfl
    have hd : ∀ t hs, Call.isDisconnect (Call.detach t hs) = false := fun _ _ => rfl
    have hw : ∀ q, Call.isDisconnect (Call.watch q) = false := fun _ => rfl
    have hc : ∀ src, Call.isDisconnect (Call.disconnect src) = true := fun _ => rfl
    have hr : Call.isDisconnect Call.resolve = false := rfl
    induction l with
    | nil => rfl
    | cons c l ih => cases c <;> simp [List.filter_cons, ha, hd, hw, hc, hr, hf, ih]
  refine ⟨k1, ?_, ?_, ?_, ?_, ?_, fun t => by rw [handlesOf, handlesOf, k2]⟩
  · rw [attachCalls, attachCalls, ← countP_filter_notDisconnect _ (fun _ => rfl) s1.log,
      ← countP_filter_notDisconnect _ (fun _ => rfl) s.log, k12]
  · rw [detachCalls, detachCalls, ← countP_filter_notDisconnect _ (fun _ => rfl) s1.log,
      ← countP_filter_notDisconnect _ (fun _ => rfl) s.log, k12]
  · intro t
    rw [detachCallsOf, detachCallsOf, ← countP_filter_notDisconnect _ (fun _ => rfl) s1.log,
      ← countP_filter_notDisconnect _ (fun _ => rfl) s.log, k12]
  · rw [mounted, mounted, ← hm Call.mounts (fun _ => rfl) s1.log,
      ← hm Call.mounts (fun _ => rfl) s.log, k12]
  · rw [removed, removed, ← hm Call.removes (fun _ => rfl) s1.log,
      ← hm Call.removes (fun _ => rfl) s.log, k12]

theorem detachCallsOf_joined (localTrack : TrackId) (moreLocal : List TrackId)
    (parts : List Participant) (b1 b2 : Bool) (t : TrackId) :
    detachCallsOf (joined localTrack moreLocal parts b1 b2) t = 0 := by
  have h := control_joined (Call.isDetachOf t) (fun _ _ => rfl) (fun _ => rfl)
    localTrack moreLocal parts b1 b2
  simp only [control, Prod.mk.injEq] at h
  rw [detachCallsOf, List.countP_eq_length_filter, h.2.2.2.2.2.2.2.2]
  rfl

theorem listeners_fire_disconnected (localTrack : TrackId) (s : State)
    (h : Live localTrack s ∨ Ended s) :
    (fire Event.disconnected s).subscribedL = s.subscribedL ∧
    (fire Event.disconnected s).unsubscribedL = s.unsubscribedL ∧
    (fire Event.disconnected s).trackPublishedL = s.trackPublishedL ∧
    (fire Event.disconnected s).participantConnectedL = s.participantConnectedL := by
  have hfire : fire Event.disconnected s = emitDisconnected s := rfl
  rcases h with h | h
  · rw [hfire, emitDisconnected_live localTrack s h.2.1, onDisconnected_eq]
    exact ⟨rfl, rfl, rfl, rfl⟩
  · rw [hfire, emitDisconnected_ended s h.2.1]
    exact ⟨rfl, rfl, rfl, rfl⟩

theorem ended_fire_disconnected (localTrack : TrackId) (s : State)
    (h : Live localTrack s ∨ Ended s) : Ended (fire Event.disconnected s) := by
  rcases h with h | h
  · exact (live_fire_disconnected localTrack s h).1
  · exact (ended_fire s h Event.disconnected).1

theorem attach_callEach (t : TrackId) (n : Nat) (s : State) :
    attachCalls (callEach n (attachTrack t) s) = attachCalls s + n ∧
    mounted (callEach n (attachTrack t) s) = mounted s + n ∧
    (callEach n (attachTrack t) s).sink.length = s.sink.length + n := by
  induction n generalizing s with
  | zero => exact ⟨rfl, rfl, rfl⟩
  | succ n ih =>
    rw [callEach_succ]
    obtain ⟨k1, k2, k3⟩ := ih (attachTrack t s)
    rw [k1, k2, k3, mounted_attachTrack]
    refine ⟨?_, by omega, ?_⟩
    · simp [attachCalls, attachTrack, List.countP_append, Call.isAttach]
      omega
    · simp [attachTrack]
      omega

/-! ## C1 and C7: concrete instances -/

/-- C1, instance of the amended statement: a publication that is not
subscribed at watch-time goes through two subscription cycles, each with
a track of its own; two elements are mounted and two removed. -/
theorem trackPublished_pairing_witness :
    (∀ t, (PubEvent.unsubscribed, t) ∈ cycleEvents → handlesOf (init false false) t = []) ∧
    SubscribedFirst (cycleEvents.map Prod.fst) ∧ Balanced (cycleEvents.map Prod.fst) ∧
    mounted (run (cycleEvents.map (trackEvent examplePublication.id))
        (trackPublished examplePublication (init false false)))
        + removed (init false false) =
      removed (run (cycleEvents.map (trackEvent examplePublication.id))
        (trackPublished examplePublication (init false false)))
        + mounted (init false false) ∧
    mounted (run (cycleEvents.map (trackEvent examplePublication.id))
        (trackPublished examplePublication (init false false))) = 2 :=
  ⟨fun _ _ => rfl, by decide, by decide,
    (trackPublished_pairing (init false false) examplePublication cycleEvents
      (fun _ _ => rfl)).mpr ⟨by decide, by decide⟩,
    by decide⟩

/-- C1 as stated fails: a publication that already has a track when it is
watched gets the track attached at once, so with no event delivered (zero
of each kind) one element is mounted and none is removed. -/
theorem trackPublished_pairing_counterexample :
    handlesOf (init false false) 9 = [] ∧
    SubscribedFirst [] ∧ Balanced [] ∧
    mounted (run (([] : List (PubEvent × TrackId)).map (trackEvent 5))
      (trackPublished { id := 5, track := some 9 } (init false false))) = 1 ∧
    removed (run (([] : List (PubEvent × TrackId)).map (trackEvent 5))
      (trackPublished { id := 5, track := some 9 } (init false false))) = 0 ∧
    mounted (run (([] : List (PubEvent × TrackId)).map (trackEvent 5))
      (trackPublished { id := 5, track := some 9 } (init false false))) ≠
    removed (run (([] : List (PubEvent × TrackId)).map (trackEvent 5))
      (trackPublished { id := 5, track := some 9 } (init false false))) :=
  ⟨rfl, by decide, by decide, by decide, by decide, by decide⟩

/-- C7, instance: a participant with the publications 10 and 11, then
publication 12 is announced; the announced one and an enumerated one are
each watched once. -/
theorem participantConnected_watches_once_witness :
    exampleParticipant.id ∉ (init false false).trackPublishedL ∧
    ((exampleParticipant.tracks ++ [examplePublication]).map Publication.id).Nodup ∧
    watchCalls (run ([examplePublication].map (Event.trackPublished exampleParticipant.id))
      (participantConnected exampleParticipant (init false false))) 12 = 1 ∧
    watchCalls (run ([examplePublication].map (Event.trackPublished exampleParticipant.id))
      (participantConnected exampleParticipant (init false false))) 10 = 1 :=
  ⟨by decide, by decide,
    (participantConnected_watches_once (init false false) exampleParticipant
      [examplePublication] (by decide) (by decide)).2.2.1 examplePublication (by decide),
    (participantConnected_watches_once (init false false) exampleParticipant
      [examplePublication] (by decide) (by decide)).2.2.1
        ({ id := 10, track := none } : Publication) (by decide)⟩

/-! ## C5, C9, C6, C4: the session teardown -/

/-- C5. After a successful join and any sequence of events, whatever
triggers are wired: the promise is never rejected; `resolve()` has been
called at most once; when `'disconnected'` was fired (any number of times)
or the leave button was clicked, it has been called exactly once and the
promise is resolved; and while the room is still connected the promise is
pending and firing `'disconnected'` calls `detachTrack` on the local track
and then `resolve()`: the local track has no element left, its elements
are out of the container, the promise is resolved. -/
theorem disconnected_resolves_once (localTrack : TrackId) (moreLocal : List TrackId)
    (parts : List Participant) (b1 b2 : Bool) (es : List Event) :
    (∀ e, (run es (joined localTrack moreLocal parts b1 b2)).promise ≠ Outcome.rejected e) ∧
    resolveCalls (run es (joined localTrack moreLocal parts b1 b2)) ≤ 1 ∧
    (Event.disconnected ∈ es ∨ Event.leaveClick ∈ es →
      resolveCalls (run es (joined localTrack moreLocal parts b1 b2)) = 1 ∧
      (run es (joined localTrack moreLocal parts b1 b2)).promise = Outcome.resolved) ∧
    ((run es (joined localTrack moreLocal parts b1 b2)).roomState = RoomState.connected →
      (run es (joined localTrack moreLocal parts b1 b2)).promise = Outcome.pending ∧
      resolveCalls (run es (joined localTrack moreLocal parts b1 b2)) = 0 ∧
      (fire Event.disconnected (run es (joined localTrack moreLocal parts b1 b2))).log =
        (run es (joined localTrack moreLocal parts b1 b2)).log ++
          [Call.detach localTrack
            (handlesOf (run es (joined localTrack moreLocal parts b1 b2)) localTrack),
           Call.resolve] ∧
      (fire Event.disconnected (run es (joined localTrack moreLocal parts b1 b2))).sink =
        (run es (joined localTrack moreLocal parts b1 b2)).sink.filter
          (fun h => decide
            (h ∉ handlesOf (run es (joined localTrack moreLocal parts b1 b2)) localTrack)) ∧
      handlesOf (fire Event.disconnected (run es (joined localTrack moreLocal parts b1 b2)))
        localTrack = [] ∧
      (fire Event.disconnected (run es (joined localTrack moreLocal parts b1 b2))).promise =
        Outcome.resolved ∧
      resolveCalls (fire Event.disconnected (run es (joined localTrack moreLocal parts b1 b2)))
        = 1) := by
  have hJ := live_joined localTrack moreLocal parts b1 b2
  have hph := phase_run localTrack es _ (Or.inl hJ)
  refine ⟨?_, ?_, ?_, ?_⟩
  · intro e
    rcases hph with h | h
    · rw [h.2.2.1]
      exact fun h => Outcome.noConfusion h
    · rw [h.2.2.1]
      exact fun h => Outcome.noConfusion h
  · rcases hph with h | h
    · rw [h.2.2.2.1]
      exact Nat.zero_le 1
    · rw [h.2.2.2.1]
  · intro hmem
    have hend : Ended (run es (joined localTrack moreLocal parts b1 b2)) := by
      rcases hmem with hmem | hmem
      · obtain ⟨es1, es2, rfl⟩ := mem_split _ _ hmem
        rw [run_split]
        exact (ended_run es2 _ (ended_fire_disconnected localTrack _
          (phase_run localTrack es1 _ (Or.inl hJ)))).1
      · obtain ⟨es1, es2, rfl⟩ := mem_split _ _ hmem
        rw [run_split]
        refine (ended_run es2 _ ?_).1
        rcases phase_run localTrack es1 _ (Or.inl hJ) with h | h
        · exact (live_fire_leaveClick localTrack _ h).1
        · exact (ended_fire _ h Event.leaveClick).1
    exact ⟨hend.2.2.2.1, hend.2.2.1⟩
  · intro hconn
    rcases hph with h | h
    · obtain ⟨k1, k2, k3, k4⟩ := live_fire_disconnected localTrack _ h
      exact ⟨h.2.2.1, h.2.2.2.1, k2, k3, k4, k1.2.2.1, k1.2.2.2.1⟩
    · rw [h.1] at hconn
      exact RoomState.noConfusion hconn

/-- C9. After a successful join and any sequence of events that holds at
least one click of the leave button: the `onLeave` handler called
`room.disconnect()` exactly once, and the handler is off the button. -/
theorem leave_fires_once (localTrack : TrackId) (moreLocal : List TrackId)
    (parts : List Participant) (b1 b2 : Bool) (es : List Event)
    (hclick : Event.leaveClick ∈ es) :
    disconnectCalls (run es (joined localTrack moreLocal parts b1 b2)) Trigger.leave = 1 ∧
    (run es (joined localTrack moreLocal parts b1 b2)).leaveL = 0 := by
  have hJ := live_joined localTrack moreLocal parts b1 b2
  obtain ⟨es1, es2, rfl⟩ := mem_split _ _ hclick
  rw [run_split]
  have hstep : Ended (fire Event.leaveClick (run es1 (joined localTrack moreLocal parts b1 b2))) ∧
      (fire Event.leaveClick (run es1 (joined localTrack moreLocal parts b1 b2))).leaveL = 0 := by
    rcases phase_run localTrack es1 _ (Or.inl hJ) with h | h
    · exact live_fire_leaveClick localTrack _ h
    · obtain ⟨k1, _, _, k4⟩ := ended_fire_teardown _ h Event.leaveClick rfl
      exact ⟨k1, k4 rfl⟩
  obtain ⟨k1, k2⟩ := ended_run es2 _ hstep.1
  have k3 := k2 hstep.2
  have k4 := k1.2.2.2.2.1
  rw [k3] at k4
  exact ⟨by omega, k3⟩

/-- C9, instance: three clicks of the leave button after a join. -/
theorem leave_fires_once_witness :
    Event.leaveClick ∈ [Event.leaveClick, Event.leaveClick, Event.leaveClick] ∧
    disconnectCalls (run [Event.leaveClick, Event.leaveClick, Event.leaveClick]
      (joined 7 [] [exampleParticipant] true true)) Trigger.leave = 1 ∧
    (run [Event.leaveClick, Event.leaveClick, Event.leaveClick]
      (joined 7 [] [exampleParticipant] true true)).leaveL = 0 :=
  ⟨by decide, leave_fires_once 7 [] [exampleParticipant] true true
    [Event.leaveClick, Event.leaveClick, Event.leaveClick] (by decide)⟩

theorem mem_subscriptions (room : Room) (sub : PubId × TrackId)
    (h : sub ∈ room.subscriptions) :
    ∃ part ∈ room.participants, ∃ pub ∈ part.tracks, pub.track = some sub.2 := by
  simp only [Room.subscriptions, List.mem_flatten, List.mem_map] at h
  obtain ⟨l, ⟨part, hpart, rfl⟩, hsub⟩ := h
  simp only [List.mem_filterMap, Option.map_eq_some'] at hsub
  obtain ⟨pub, hpub, t, ht, rfl⟩ := hsub
  exact ⟨part, hpart, pub, hpub, ht⟩

theorem remote_joined (localTrack : TrackId) (moreLocal : List TrackId)
    (parts : List Participant) (b1 b2 : Bool)
    (hremote : ∀ part ∈ parts, ∀ pub ∈ part.tracks, pub.track ≠ some localTrack) :
    ∀ sub ∈ subscriptionsOf (joined localTrack moreLocal parts b1 b2), sub.2 ≠ localTrack := by
  intro sub hsub hx
  simp only [subscriptionsOf, windowRoom_joined] at hsub
  obtain ⟨part, hpart, pub, hpub, ht⟩ := mem_subscriptions _ sub hsub
  exact hremote part hpart pub hpub (by rw [ht, hx])

theorem isTeardown_toEvent (t : Trigger) : t.toEvent.isTeardown = true := by
  cases t <;> rfl

theorem fire_unwired (s : State) (b1 b2 : Bool) (t : Trigger)
    (hb : s.beforeunloadL = if b1 then 1 else 0)
    (hp : s.onpagehide = if b2 then PageHide.disconnectRoom else PageHide.unset)
    (hw : wired b1 b2 t = false) : fire t.toEvent s = s := by
  cases t with
  | leave => simp [wired] at hw
  | beforeunload =>
    simp only [wired] at hw
    simp [Trigger.toEvent, fire, hb, hw, callEach]
  | pagehide =>
    simp only [wired] at hw
    simp [Trigger.toEvent, fire, hp, hw]

theorem fire_wired (localTrack : TrackId) (s : State) (b1 b2 : Bool) (t : Trigger)
    (hL : Live localTrack s)
    (hb : s.beforeunloadL = if b1 then 1 else 0)
    (hp : s.onpagehide = if b2 then PageHide.disconnectRoom else PageHide.unset)
    (hw : wired b1 b2 t = true)
    (hremote : ∀ sub ∈ subscriptionsOf s, sub.2 ≠ localTrack) :
    Ended (fire t.toEvent s) ∧ handlesOf (fire t.toEvent s) localTrack = [] ∧
    detachCallsOf (fire t.toEvent s) localTrack = detachCallsOf s localTrack + 1 ∧
    disconnectCalls (fire t.toEvent s) t = disconnectCalls s t + 1 := by
  cases t with
  | leave =>
    have hfire : fire Trigger.leave.toEvent s = fire Event.leaveClick s := rfl
    rw [hfire, fire_leaveClick_live localTrack s hL]
    obtain ⟨k1, _, k3, k4, k5⟩ := running_disconnecting localTrack _
      (running_onLeave localTrack s hL) hremote
    refine ⟨k1, k3, ?_, ?_⟩
    · rw [k4]
      simp [detachCallsOf, List.countP_append, Call.isDetachOf]
    · rw [k5]
      simp [disconnectCalls, List.count_append]
  | beforeunload =>
    simp only [wired] at hw
    have hfire : fire Trigger.beforeunload.toEvent s =
        roomDisconnect Trigger.beforeunload s := by
      simp [Trigger.toEvent, fire, hb, hw, callEach]
    rw [hfire, roomDisconnect_connected Trigger.beforeunload s hL.1]
    obtain ⟨k1, _, k3, k4, k5⟩ := running_disconnecting localTrack _
      (running_logged Trigger.beforeunload (by decide) localTrack s hL) hremote
    refine ⟨k1, k3, ?_, ?_⟩
    · rw [k4]
      simp [detachCallsOf, List.countP_append, Call.isDetachOf]
    · rw [k5]
      simp [disconnectCalls, List.count_append]
  | pagehide =>
    simp only [wired] at hw
    have hfire : fire Trigger.pagehide.toEvent s = roomDisconnect Trigger.pagehide s := by
      simp [Trigger.toEvent, fire, hp, hw]
    rw [hfire, roomDisconnect_connected Trigger.pagehide s hL.1]
    obtain ⟨k1, _, k3, k4, k5⟩ := running_disconnecting localTrack _
      (running_logged Trigger.pagehide (by decide) localTrack s hL) hremote
    refine ⟨k1, k3, ?_, ?_⟩
    · rw [k4]
      simp [detachCallsOf, List.countP_append, Call.isDetachOf]
    · rw [k5]
      simp [disconnectCalls, List.count_append]

theorem split_first_wired (b1 b2 : Bool) (ts : List Trigger) :
    (∀ t ∈ ts, wired b1 b2 t = false) ∨
    ∃ ts1 t ts2, ts = ts1 ++ t :: ts2 ∧ (∀ x ∈ ts1, wired b1 b2 x = false) ∧
      wired b1 b2 t = true := by
  induction ts with
  | nil => exact Or.inl (by simp)
  | cons a l ih =>
    cases ha : wired b1 b2 a
    · rcases ih with h | ⟨ts1, t, ts2, h1, h2, h3⟩
      · left
        intro t ht
        rcases List.mem_cons.mp ht with h4 | h4
        · rw [h4]
          exact ha
        · exact h t h4
      · right
        refine ⟨a :: ts1, t, ts2, by rw [h1]; rfl, ?_, h3⟩
        intro x hx
        rcases List.mem_cons.mp hx with h4 | h4
        · rw [h4]
          exact ha
        · exact h2 x h4
    · exact Or.inr ⟨[], a, l, rfl, by simp, ha⟩

theorem run_unwired (s : State) (b1 b2 : Bool) (ts : List Trigger)
    (hb : s.beforeunloadL = if b1 then 1 else 0)
    (hp : s.onpagehide = if b2 then PageHide.disconnectRoom else PageHide.unset)
    (hw : ∀ t ∈ ts, wired b1 b2 t = false) : run (ts.map Trigger.toEvent) s = s := by
  induction ts with
  | nil => rfl
  | cons a l ih =>
    rw [List.map_cons, run_cons,
      fire_unwired s b1 b2 a hb hp (hw a (List.mem_cons_self _ _))]
    exact ih (fun t ht => hw t (List.mem_cons_of_mem _ ht))

/-- C6. After a successful join (the local track being none of the remote
tracks) and for every sequence of firings of the three disconnect triggers:
`detachTrack` was called on the local track at most once.  While only
triggers fired that `joinRoom` did not wire (`beforeunload` or `pagehide`
with a falsy `window.onbeforeunload` / `window.onpagehide`), the state is
exactly the one after the join.  The first wired trigger that fires
disconnects the room: it calls `room.disconnect()`, the room is
disconnected, `detachTrack` ran on the local track once, the local track
has no element left, the promise is resolved by one `resolve()`; every
firing after it changes nothing that can be observed, so what can be
observed at the end is what that first trigger alone leaves behind.  And
after any events at all, once the room is disconnected a firing of any
trigger changes nothing that can be observed.  `fire` is total, so no
firing throws. -/
theorem disconnect_triggers_exclusive (localTrack : TrackId) (moreLocal : List TrackId)
    (parts : List Participant) (b1 b2 : Bool) (ts : List Trigger)
    (hremote : ∀ part ∈ parts, ∀ pub ∈ part.tracks, pub.track ≠ some localTrack) :
    detachCallsOf (run (ts.map Trigger.toEvent) (joined localTrack moreLocal parts b1 b2))
      localTrack ≤ 1 ∧
    ((∀ t ∈ ts, wired b1 b2 t = false) →
      run (ts.map Trigger.toEvent) (joined localTrack moreLocal parts b1 b2) =
        joined localTrack moreLocal parts b1 b2) ∧
    (∀ ts1 t ts2, ts = ts1 ++ t :: ts2 → (∀ x ∈ ts1, wired b1 b2 x = false) →
      wired b1 b2 t = true →
      observable (run (ts.map Trigger.toEvent) (joined localTrack moreLocal parts b1 b2)) =
        observable (fire t.toEvent (joined localTrack moreLocal parts b1 b2)) ∧
      (run (ts.map Trigger.toEvent) (joined localTrack moreLocal parts b1 b2)).roomState =
        RoomState.disconnected ∧
      (run (ts.map Trigger.toEvent) (joined localTrack moreLocal parts b1 b2)).promise =
        Outcome.resolved ∧
      detachCallsOf (run (ts.map Trigger.toEvent) (joined localTrack moreLocal parts b1 b2))
        localTrack = 1 ∧
      resolveCalls (run (ts.map Trigger.toEvent) (joined localTrack moreLocal parts b1 b2))
        = 1 ∧
      handlesOf (run (ts.map Trigger.toEvent) (joined localTrack moreLocal parts b1 b2))
        localTrack = [] ∧
      disconnectCalls (fire t.toEvent (joined localTrack moreLocal parts b1 b2)) t = 1) ∧
    (∀ (es : List Event) (t : Trigger),
      (run es (joined localTrack moreLocal parts b1 b2)).roomState = RoomState.disconnected →
      observable (fire t.toEvent (run es (joined localTrack moreLocal parts b1 b2))) =
        observable (run es (joined localTrack moreLocal parts b1 b2))) := by
  have hJ := live_joined localTrack moreLocal parts b1 b2
  have hc := control_joined Call.isTeardown (fun _ _ => rfl) (fun _ => rfl)
    localTrack moreLocal parts b1 b2
  simp only [control, Prod.mk.injEq] at hc
  obtain ⟨_, _, _, _, hb, hp, _, _, hlog⟩ := hc
  have hrem := remote_joined localTrack moreLocal parts b1 b2 hremote
  have hdl0 := detachCallsOf_joined localTrack moreLocal parts b1 b2 localTrack
  have hfirst : ∀ ts1 t ts2, ts = ts1 ++ t :: ts2 → (∀ x ∈ ts1, wired b1 b2 x = false) →
      wired b1 b2 t = true →
      observable (run (ts.map Trigger.toEvent) (joined localTrack moreLocal parts b1 b2)) =
        observable (fire t.toEvent (joined localTrack moreLocal parts b1 b2)) ∧
      (run (ts.map Trigger.toEvent) (joined localTrack moreLocal parts b1 b2)).roomState =
        RoomState.disconnected ∧
      (run (ts.map Trigger.toEvent) (joined localTrack moreLocal parts b1 b2)).promise =
        Outcome.resolved ∧
      detachCallsOf (run (ts.map Trigger.toEvent) (joined localTrack moreLocal parts b1 b2))
        localTrack = 1 ∧
      resolveCalls (run (ts.map Trigger.toEvent) (joined localTrack moreLocal parts b1 b2))
        = 1 ∧
      handlesOf (run (ts.map Trigger.toEvent) (joined localTrack moreLocal parts b1 b2))
        localTrack = [] ∧
      disconnectCalls (fire t.toEvent (joined localTrack moreLocal parts b1 b2)) t = 1 := by
    intro ts1 t ts2 hts hun hw
    subst hts
    rw [List.map_append, List.map_cons, run_split,
      run_unwired _ b1 b2 ts1 hb hp hun]
    obtain ⟨f1, f2, f3, f4⟩ := fire_wired localTrack _ b1 b2 t hJ hb hp hw hrem
    obtain ⟨e1, e2⟩ := ended_run_teardown (ts2.map Trigger.toEvent) _ f1 (by
      intro e he
      obtain ⟨x, _, rfl⟩ := List.mem_map.mp he
      exact isTeardown_toEvent x)
    obtain ⟨_, _, _, c4, _, _, c7⟩ := calls_of_observable _ _ e2
    refine ⟨e2, e1.1, e1.2.2.1, ?_, e1.2.2.2.1, ?_, ?_⟩
    · rw [c4, f3, hdl0]
    · rw [c7, f2]
    · rw [f4, disconnectCalls_eq, hlog]
      rfl
  refine ⟨?_, ?_, hfirst, ?_⟩
  · rcases split_first_wired b1 b2 ts with h | ⟨ts1, t, ts2, h1, h2, h3⟩
    · rw [run_unwired _ b1 b2 ts hb hp h, hdl0]
      exact Nat.zero_le 1
    · rw [(hfirst ts1 t ts2 h1 h2 h3).2.2.2.1]
  · exact run_unwired _ b1 b2 ts hb hp
  · intro es t hdisc
    rcases phase_run localTrack es _ (Or.inl hJ) with h | h
    · rw [h.1] at hdisc
      exact RoomState.noConfusion hdisc
    · exact (ended_fire_teardown _ h t.toEvent (isTeardown_toEvent t)).2.1

/-- C6, instance: `beforeunload`, a click, `pagehide` and another click
after a join with both window triggers wired and a remote participant with
a subscribed publication.  In Scenario A a click of the leave button makes
the remote publication emit `'unsubscribed'` before the room emits
`'disconnected'`: `detachTrack` runs twice, once on each track, and the
container is empty. -/
theorem disconnect_triggers_exclusive_witness :
    (∀ part ∈ [exampleParticipant], ∀ pub ∈ part.tracks, pub.track ≠ some 7) ∧
    detachCallsOf (run
      ([Trigger.beforeunload, Trigger.leave, Trigger.pagehide, Trigger.leave].map
        Trigger.toEvent) (joined 7 [] [exampleParticipant] true true)) 7 ≤ 1 ∧
    (fire Event.leaveClick
      (joinRoom (Except.ok (scenarioRoom 7 [] 3 5 9)) (init false false))).log =
      [Call.attach 7 0, Call.watch 5, Call.attach 9 1, Call.disconnect Trigger.leave,
        Call.detach 9 [1], Call.detach 7 [0], Call.resolve] ∧
    (fire Event.leaveClick
      (joinRoom (Except.ok (scenarioRoom 7 [] 3 5 9)) (init false false))).sink = [] :=
  ⟨by decide, (disconnect_triggers_exclusive 7 [] [exampleParticipant] true true
    [Trigger.beforeunload, Trigger.leave, Trigger.pagehide, Trigger.leave] (by decide)).1,
    by decide, by decide⟩

/-- C4 as stated fails. Scenario A, then the room fires `'disconnected'`,
then the remote publication fires `'subscribed'`: its listener is still
registered, `attachTrack` runs once more and the container gets a new
element. -/
theorem events_after_disconnected_counterexample :
    (fire Event.disconnected
      (joinRoom (Except.ok (scenarioRoom 7 [] 3 5 9)) (init false false))).sink = [1] ∧
    (fire (Event.subscribed 5 9) (fire Event.disconnected
      (joinRoom (Except.ok (scenarioRoom 7 [] 3 5 9)) (init false false)))).sink = [1, 2] ∧
    (fire (Event.subscribed 5 9) (fire Event.disconnected
      (joinRoom (Except.ok (scenarioRoom 7 [] 3 5 9)) (init false false)))).sink ≠
    (fire Event.disconnected
      (joinRoom (Except.ok (scenarioRoom 7 [] 3 5 9)) (init false false))).sink ∧
    attachCalls (fire (Event.subscribed 5 9) (fire Event.disconnected
      (joinRoom (Except.ok (scenarioRoom 7 [] 3 5 9)) (init false false)))) =
    attachCalls (fire Event.disconnected
      (joinRoom (Except.ok (scenarioRoom 7 [] 3 5 9)) (init false false))) + 1 := by
  decide

/-- C4, as amended. After a successful join and any events, once the room
has fired `'disconnected'`: every further `'disconnected'` and every firing
of a disconnect trigger leaves the container and the numbers of
`attachTrack` and `detachTrack` calls exactly as they were right after the
disconnect handler ran.  The listeners of the publications, the
participants and the room are not taken off by the disconnect handler, so
a `'subscribed'` fired afterwards still runs `attachTrack` once per
listener registered on that publication and the container grows by as
many elements. -/
theorem after_disconnected (localTrack : TrackId) (moreLocal : List TrackId)
    (parts : List Participant) (b1 b2 : Bool) (es ts : List Event)
    (hts : ∀ e ∈ ts, e.isTeardown = true) :
    (run ts (fire Event.disconnected (run es (joined localTrack moreLocal parts b1 b2)))).sink =
      (fire Event.disconnected (run es (joined localTrack moreLocal parts b1 b2))).sink ∧
    attachCalls
        (run ts (fire Event.disconnected (run es (joined localTrack moreLocal parts b1 b2)))) =
      attachCalls (fire Event.disconnected (run es (joined localTrack moreLocal parts b1 b2))) ∧
    detachCalls
        (run ts (fire Event.disconnected (run es (joined localTrack moreLocal parts b1 b2)))) =
      detachCalls (fire Event.disconnected (run es (joined localTrack moreLocal parts b1 b2))) ∧
    observable
        (run ts (fire Event.disconnected (run es (joined localTrack moreLocal parts b1 b2)))) =
      observable (fire Event.disconnected (run es (joined localTrack moreLocal parts b1 b2))) ∧
    (fire Event.disconnected (run es (joined localTrack moreLocal parts b1 b2))).subscribedL =
      (run es (joined localTrack moreLocal parts b1 b2)).subscribedL ∧
    (fire Event.disconnected (run es (joined localTrack moreLocal parts b1 b2))).unsubscribedL =
      (run es (joined localTrack moreLocal parts b1 b2)).unsubscribedL ∧
    (fire Event.disconnected (run es (joined localTrack moreLocal parts b1 b2))).trackPublishedL =
      (run es (joined localTrack moreLocal parts b1 b2)).trackPublishedL ∧
    (fire Event.disconnected
        (run es (joined localTrack moreLocal parts b1 b2))).participantConnectedL =
      (run es (joined localTrack moreLocal parts b1 b2)).participantConnectedL ∧
    (∀ pub t,
      attachCalls (fire (Event.subscribed pub t)
          (fire Event.disconnected (run es (joined localTrack moreLocal parts b1 b2)))) =
        attachCalls (fire Event.disconnected (run es (joined localTrack moreLocal parts b1 b2)))
          + (run es (joined localTrack moreLocal parts b1 b2)).subscribedL.count pub ∧
      (fire (Event.subscribed pub t)
          (fire Event.disconnected
            (run es (joined localTrack moreLocal parts b1 b2)))).sink.length =
        (fire Event.disconnected (run es (joined localTrack moreLocal parts b1 b2))).sink.length
          + (run es (joined localTrack moreLocal parts b1 b2)).subscribedL.count pub) := by
  have hph := phase_run localTrack es _ (Or.inl (live_joined localTrack moreLocal parts b1 b2))
  have hend := ended_fire_disconnected localTrack _ hph
  obtain ⟨_, hobs⟩ := ended_run_teardown ts _ hend hts
  obtain ⟨k1, k2, k3, _, _, _, _⟩ := calls_of_observable _ _ hobs
  obtain ⟨l1, l2, l3, l4⟩ := listeners_fire_disconnected localTrack _ hph
  refine ⟨k1, k2, k3, hobs, l1, l2, l3, l4, ?_⟩
  intro pub t
  have hfire : ∀ s : State, fire (Event.subscribed pub t) s =
      callEach (s.subscribedL.count pub) (attachTrack t)
        (updateRoom (Room.setTrack pub (some t)) s) := fun _ => rfl
  rw [hfire, l1]
  obtain ⟨a1, _, a3⟩ := attach_callEach t
    ((run es (joined localTrack moreLocal parts b1 b2)).subscribedL.count pub)
    (updateRoom (Room.setTrack pub (some t))
      (fire Event.disconnected (run es (joined localTrack moreLocal parts b1 b2))))
  exact ⟨a1, a3⟩

/-- C4, instance of the amended statement: Scenario A, `'disconnected'`,
then a click, `'disconnected'` again and `pagehide`. -/
theorem after_disconnected_witness :
    (∀ e ∈ [Event.leaveClick, Event.disconnected, Event.pagehide], e.isTeardown = true) ∧
    (run [Event.leaveClick, Event.disconnected, Event.pagehide]
      (fire Event.disconnected (run [] (joined 7 [] [exampleParticipant] true true)))).sink =
      (fire Event.disconnected (run [] (joined 7 [] [exampleParticipant] true true))).sink :=
  ⟨by decide, (after_disconnected 7 [] [exampleParticipant] true true []
    [Event.leaveClick, Event.disconnected, Event.pagehide] (by decide)).1⟩

end JoinRoom
